import Mathlib

/-!
Verification of the MSCitemsCleaner save-file cleaner (src/main.rs).

The program is embedded shallowly:
* byte buffers are lists of natural numbers (each element a byte value);
* Rust strings are lists of Unicode code points (`List Nat`); the source
  builds tag strings one byte per character (`b as char`), so decoded tag
  code points are the raw byte values.  Byte-level string operations of
  the source (starts_with, ends_with, replace, the digit scans) coincide
  with code-point-level operations on valid strings because all bytes the
  scans inspect are ASCII, so the embedding works on code points;
* u32 arithmetic is `Nat` with explicit wrap-around (`% 4294967296`)
  where the source can overflow (release-build wrapping semantics);
* the process aborts of the source (both the explicit `exit` calls and
  index-out-of-bounds aborts) are an `Except` error result;
* loops that walk a list are written with an explicit fuel argument that
  starts at least as large as the number of iterations the source
  performs, so every definition is structurally recursive and reduces.
-/

set_option maxRecDepth 8000

deriving instance DecidableEq for Except

/-- Code points of a string literal, used to transcribe the string
literals of the source. -/
def str (s : String) : List Nat := s.data.map Char.toNat

/-- Decimal digit test on a code point, transcribing the checks
of the source (compare with the characters 0 and 9). -/
def isDigitN (c : Nat) : Bool := 48 ≤ c && c ≤ 57

/-- Whether a tag contains a decimal digit somewhere. -/
def hasDigitL (t : List Nat) : Bool := t.any isDigitN

/-- Whether a list ends with the given suffix (Rust ends_with). -/
def endsWithL (suf t : List Nat) : Bool := suf.isSuffixOf t

/-- Helper loop for `natDigits`: repeatedly divide by ten, prepending
the digit of each remainder to the accumulator.  The fuel argument only
bounds the recursion; `natDigits` passes enough for the loop to finish. -/
def natDigitsGo : Nat → Nat → List Nat → List Nat
  | 0, _, acc => acc
  | fuel + 1, n, acc =>
    if n < 10 then (48 + n) :: acc
    else natDigitsGo fuel (n / 10) ((48 + n % 10) :: acc)

/-- Decimal digits of a natural number, as code points; this embeds the
formatting of a number by the source (format with the empty display
specification, i.e. decimal notation without padding). -/
def natDigits (n : Nat) : List Nat := natDigitsGo (n + 1) n []

/-- Helper loop for `replaceAll` on a nonempty pattern: at each position
either the pattern matches and is replaced (the scan then skips the
matched bytes), or one byte is copied.  The fuel argument bounds the
recursion; `replaceAll` passes the length of the scanned list, which is
enough because every step consumes at least one element. -/
def replaceGo (o : Nat) (os new : List Nat) : Nat → List Nat → List Nat
  | _, [] => []
  | 0, l => l
  | fuel + 1, c :: rest =>
    if (o :: os).isPrefixOf (c :: rest)
    then new ++ replaceGo o os new fuel (rest.drop os.length)
    else c :: replaceGo o os new fuel rest

/-- Rust str::replace: replaces every non-overlapping occurrence of the
pattern, leftmost first (with an empty pattern Rust inserts the
replacement at every character boundary). -/
def replaceAll (old new t : List Nat) : List Nat :=
  match old with
  | [] => new ++ t.flatMap (fun c => c :: new)
  | o :: os => replaceGo o os new t.length t

/-- An entry of items.txt: struct Entry of the source. -/
structure Entry where
  tag : List Nat
  data : List Nat
deriving DecidableEq, Repr

/-- Reads a little-endian u32 from four bytes: fn get_u32_le of the
source ((b0 << 0) | (b1 << 8) | (b2 << 16) | (b3 << 24) on u32). -/
def get_u32_le (b0 b1 b2 b3 : Nat) : Nat :=
  b0 + b1 * 256 + b2 * 65536 + b3 * 16777216

/-- Little-endian byte vector of a number: fn mk_u32_le of the source
(each byte is (n >> k) & 0xFF). -/
def mk_u32_le (n : Nat) : List Nat :=
  [n % 256, n / 256 % 256, n / 65536 % 256, n / 16777216 % 256]

/-- Errors of the decoding loop: the two explicit exits of
fn generate_entries (invalid header symbol and invalid footer symbol,
each reporting the byte position) and the abort on reading past the
end of the buffer (the index of the attempted read is recorded). -/
inductive DecErr where
  | header (pos : Nat)
  | footer (pos : Nat)
  | oob (pos : Nat)
deriving DecidableEq, Repr

/-- One iteration of the loop of fn generate_entries of the source:
pos is the absolute position of the scan in the whole buffer, l the
remaining bytes (nonempty when called).  The record is read as: header
byte 0x7E, one tag-length byte, that many tag bytes, a little-endian
u32 length L, L minus 1 data bytes (u32 subtraction, which wraps when
L = 0), and a footer byte 0x7B; the result is the entry, the position
after the record and the bytes after the record.  Reads past the end
of the buffer abort; the reads of the source are sequential, so the
first failing index is the buffer length. -/
def parseRecord (pos : Nat) (l : List Nat) : Except DecErr (Entry × Nat × List Nat) :=
  if l.length < 1 then .error (.oob pos)
  else if l.getD 0 0 ≠ 126 then .error (.header pos)
  else if l.length < 2 then .error (.oob (pos + 1))
  else
    let tlen := l.getD 1 0
    let rest2 := l.drop 2
    if rest2.length < tlen then .error (.oob (pos + 2 + rest2.length))
    else
      let rest3 := rest2.drop tlen
      if rest3.length < 4 then .error (.oob (pos + 2 + tlen + rest3.length))
      else
        let L := get_u32_le (rest3.getD 0 0) (rest3.getD 1 0)
          (rest3.getD 2 0) (rest3.getD 3 0)
        let dlen := (L + 4294967295) % 4294967296
        let rest4 := rest3.drop 4
        if rest4.length < dlen then .error (.oob (pos + 2 + tlen + 4 + rest4.length))
        else if rest4.length = dlen then .error (.oob (pos + 2 + tlen + 4 + dlen))
        else if rest4.getD dlen 0 ≠ 123 then .error (.footer (pos + 2 + tlen + 4 + dlen))
        else .ok (⟨rest2.take tlen, rest4.take dlen⟩,
          pos + 2 + tlen + 4 + dlen + 1, rest4.drop (dlen + 1))

/-- The loop of fn generate_entries of the source: records are parsed
one after another until the buffer is exhausted.  The fuel argument
bounds the recursion; `generate_entries` passes the buffer length,
which is enough because every record consumes at least one byte. -/
def genGo : Nat → Nat → List Nat → Except DecErr (List Entry)
  | _, _, [] => .ok []
  | 0, pos, _ :: _ => .error (.oob pos)
  | fuel + 1, pos, b :: rest =>
    match parseRecord pos (b :: rest) with
    | .error e => .error e
    | .ok (entry, pos2, rest5) =>
      match genGo fuel pos2 rest5 with
      | .error err => .error err
      | .ok es => .ok (entry :: es)

/-- fn generate_entries of the source, as a function from the byte
buffer to either the entry list or the abort cause. -/
def generate_entries (buf : List Nat) : Except DecErr (List Entry) :=
  genGo buf.length 0 buf

/-- UTF-8 encoding of one code point.  Rust strings store UTF-8; a
character pushed from a byte at or above 0x80 occupies two bytes. -/
def utf8Bytes (c : Nat) : List Nat :=
  if c < 128 then [c]
  else if c < 2048 then [192 + c / 64, 128 + c % 64]
  else if c < 65536 then [224 + c / 4096, 128 + c / 64 % 64, 128 + c % 64]
  else [240 + c / 262144, 128 + c / 4096 % 64, 128 + c / 64 % 64, 128 + c % 64]

/-- The bytes fn save_new_items_file of the source writes for one
entry: header 0x7E, the UTF-8 byte length of the tag cast to u8, the
UTF-8 bytes of the tag, the little-endian length data.len() + 1, the
data bytes, and the footer 0x7B. -/
def encodeEntry (e : Entry) : List Nat :=
  126 :: ((e.tag.flatMap utf8Bytes).length % 256) ::
    e.tag.flatMap utf8Bytes ++ mk_u32_le (e.data.length + 1) ++ e.data ++ [123]

/-- The byte stream fn save_new_items_file of the source writes for an
entry list (the file contents; the I/O itself is outside the model). -/
def save_new_items_file (es : List Entry) : List Nat :=
  es.flatMap encodeEntry

/-- The fixed landfill position bytes of fn is_in_landfill. -/
def landfill_pos : List Nat :=
  [0xFA, 0xD4, 0x29, 0xC4, 0xB8, 0x4F, 0x92, 0x40, 0xEF, 0xD2, 0x35, 0xC4]

/-- fn is_in_landfill of the source: false when the data is shorter
than 18 bytes, otherwise a fold over positions 6 to 17 comparing the
data bytes with the landfill position bytes. -/
def is_in_landfill (e : Entry) : Bool :=
  if e.data.length < 18 then false
  else (List.range' 6 12).foldl
    (fun same i => same && (e.data.getD i 0 == landfill_pos.getD (i - 6) 0)) true

/-- The scanning loop of fn get_item_id of the source: tag is the whole
tag (used for the two return sites), sc the precomputed test whether
the tag starts with the literal spraycan (the source recomputes it each
iteration, on the unchanged tag); the remaining list, the current index
and the count of digits seen so far are threaded.  On the first digit
the count becomes one; afterwards the scan stops at the first position
that is not a digit, or, for spraycan tags, once two digits were taken,
returning the prefix before that position. -/
def giiGo (tag : List Nat) (sc : Bool) : List Nat → Nat → Nat → List Nat
  | [], _, _ => tag
  | c :: rest, i, cnt =>
    if cnt = 0 then
      if isDigitN c then giiGo tag sc rest (i + 1) 1
      else giiGo tag sc rest (i + 1) 0
    else
      if !isDigitN c || (sc && 2 ≤ cnt) then tag.take i
      else giiGo tag sc rest (i + 1) (cnt + 1)

/-- fn get_item_id of the source. -/
def get_item_id (tag : List Nat) : List Nat :=
  giiGo tag ((str "spraycan").isPrefixOf tag) tag 0 0

/-- The scanning loop of fn tag_set_new_count of the source: walks the
tag with the current index, recording in s the first index holding a
digit while s is still zero, and in en the first index after s holding
a non-digit while en is still zero. -/
def tsncScan : List Nat → Nat → Nat → Nat → Nat × Nat
  | [], _, s, en => (s, en)
  | c :: rest, i, s, en =>
    if isDigitN c then
      if s = 0 then tsncScan rest (i + 1) i en
      else tsncScan rest (i + 1) s en
    else
      if 0 < s ∧ en = 0 then tsncScan rest (i + 1) s i
      else tsncScan rest (i + 1) s en

/-- fn tag_set_new_count of the source (as a function on the tag; the
source mutates the entry in place): the result is the prefix before
index s, the decimal digits of n, and the bytes from index en on. -/
def tag_set_new_count (tag : List Nat) (n : Nat) : List Nat :=
  (tag.take (tsncScan tag 0 0 0).1) ++ natDigits n ++ (tag.drop (tsncScan tag 0 0 0).2)

/-- The fixed allowlist dont_touch_entries of fn clean_entries: entries
present on a fresh save game that are never touched. -/
def dont_touch_entries : List (List Nat) :=
  [str "milkxTransform", str "milkxCondition", str "sausagesx0",
   str "pizzaxTransform", str "pizzaxCondition", str "beercase0",
   str "macaron boxxTransform", str "macaron boxxCondition", str "oilfilter0"]

/-- The fixed blacklist of tag beginnings of fn clean_entries: tags
starting with one of these are never touched by the rename loop. -/
def blacklist : List (List Nat) :=
  [str "fireextinguisher", str "n2obottle", str "battery", str "oil filter,",
   str "spark plug", str "alternator belt", str "light bulb", str "fuse",
   str "r20 battery"]

/-- struct Group of fn clean_entries: an item group with its tag
beginning, the tag of its dedicated counter entry, whether a default
zero-indexed item exists, and the running count and maximum. -/
structure ItemGroup where
  tagname : List Nat
  tagid : List Nat
  has_default_zero_item : Bool
  count : Nat
  max : Nat
deriving DecidableEq, Repr

/-- The static item_counts table of fn clean_entries. -/
def item_counts0 : List ItemGroup :=
  [⟨str "beercase", str "BeerCaseID", true, 0, 0⟩,
   ⟨str "sausagesx", str "SausagesxID", true, 0, 0⟩,
   ⟨str "milkx", str "milkxID", true, 0, 0⟩,
   ⟨str "sugar", str "sugarID", false, 0, 0⟩,
   ⟨str "yeast", str "yeastID", false, 0, 0⟩,
   ⟨str "potatochips", str "potatochipsID", false, 0, 0⟩,
   ⟨str "pizzax", str "pizzaxID", true, 0, 0⟩,
   ⟨str "macaronbox", str "macaronboxxID", false, 0, 0⟩,
   ⟨str "shoppingbagx", str "shoppingbagxID", false, 0, 0⟩,
   ⟨str "moosemeatx", str "moosemeatxID", false, 0, 0⟩,
   ⟨str "Booze", str "BoozeID", false, 0, 0⟩,
   ⟨str "pikex", str "pikexID", false, 0, 0⟩,
   ⟨str "juiceconcentrate", str "juiceconcentrateID", false, 0, 0⟩,
   ⟨str "motoroil", str "motoroilID", false, 0, 0⟩,
   ⟨str "brakefluid", str "brakefluidID", false, 0, 0⟩,
   ⟨str "coolant", str "coolantID", false, 0, 0⟩,
   ⟨str "twostroke", str "twostrokeID", false, 0, 0⟩,
   ⟨str "cigarettes", str "cigarettesID", false, 0, 0⟩,
   ⟨str "spark plug box", str "sparkplugboxID", false, 0, 0⟩,
   ⟨str "groundcoffee", str "groundcoffeeID", false, 0, 0⟩,
   ⟨str "grillcharcoal", str "grillcharcoalID", false, 0, 0⟩,
   ⟨str "light bulb box", str "lightbulbboxID", false, 0, 0⟩,
   ⟨str "fuse package", str "fusepackageID", false, 0, 0⟩,
   ⟨str "r20 battery box", str "r20batteryboxID", false, 0, 0⟩,
   ⟨str "mosquitospray", str "mosquitosprayID", false, 0, 0⟩,
   ⟨str "spraycan01", str "Spraycan01ID", false, 0, 0⟩,
   ⟨str "spraycan02", str "Spraycan02ID", false, 0, 0⟩,
   ⟨str "spraycan03", str "Spraycan03ID", false, 0, 0⟩,
   ⟨str "spraycan04", str "Spraycan04ID", false, 0, 0⟩,
   ⟨str "spraycan05", str "Spraycan05ID", false, 0, 0⟩,
   ⟨str "spraycan06", str "Spraycan06ID", false, 0, 0⟩,
   ⟨str "spraycan07", str "Spraycan07ID", false, 0, 0⟩,
   ⟨str "spraycan08", str "Spraycan08ID", false, 0, 0⟩,
   ⟨str "spraycan09", str "Spraycan09ID", false, 0, 0⟩,
   ⟨str "spraycan10", str "Spraycan10ID", false, 0, 0⟩,
   ⟨str "spraycan11", str "Spraycan11ID", false, 0, 0⟩,
   ⟨str "spraycan12", str "Spraycan12ID", false, 0, 0⟩,
   ⟨str "spraycan13", str "Spraycan13ID", false, 0, 0⟩]

/-- The first loop of fn clean_entries: the item ids of the entries
that sit at the landfill position, excluding item ids on the allowlist
and tags starting with a blacklisted beginning (one push per matching
entry, in order). -/
def located_in_landfill (entries : List Entry) : List (List Nat) :=
  (entries.filter fun e =>
    is_in_landfill e
      && !(dont_touch_entries.contains (get_item_id e.tag))
      && blacklist.all fun bi => !(bi.isPrefixOf e.tag)).map
    fun e => get_item_id e.tag

/-- Whether an entry survives the landfill filter of fn clean_entries
(its item id was not collected by `located_in_landfill`). -/
def survivesFilter (entries : List Entry) (e : Entry) : Bool :=
  !((located_in_landfill entries).contains (get_item_id e.tag))

/-- The counting loop of fn clean_entries: for every group, each
surviving entry whose tag starts with the group tag beginning and ends
with Transform increments count and max (the source iterates entries
outside and groups inside; the per-group totals are the same). -/
def count_items (res : List Entry) (gs : List ItemGroup) : List ItemGroup :=
  gs.map fun g =>
    let n := (res.filter fun e =>
      g.tagname.isPrefixOf e.tag && endsWithL (str "Transform") e.tag).length
    { g with count := g.count + n, max := g.max + n }

/-- The reduction loop of fn clean_entries: a group with at least one
counted item and a default zero item has count and max lowered by 1,
because the counter field stores the highest id, not the count. -/
def reduce_counters (gs : List ItemGroup) : List ItemGroup :=
  gs.map fun g =>
    if 1 ≤ g.count ∧ g.has_default_zero_item
    then { g with count := g.count - 1, max := g.max - 1 }
    else g

/-- struct Map of fn clean_entries: one old item id mapped to the
newly assigned item id. -/
structure MapE where
  oldid : List Nat
  newid : List Nat
deriving DecidableEq, Repr

/-- The inner loop of the rename pass of fn clean_entries, over the
group list, threading the entry (whose tag may be rewritten several
times), the groups (whose running counts may drop) and the map.
A group whose counter tag equals the current tag is skipped; for a
group whose tag beginning starts the current tag, the item id is
looked up in the map: if present the tag has the old id replaced by
the mapped id, otherwise the tag gets the running count of the group
as its new number, the count drops by one (staying at zero), and the
old and new item ids are appended to the map. -/
def rename_groups : Entry → List ItemGroup → List MapE → Entry × List ItemGroup × List MapE
  | e, [], m => (e, [], m)
  | e, g :: gs, m =>
    if g.tagid = e.tag then
      let r := rename_groups e gs m
      (r.1, g :: r.2.1, r.2.2)
    else if g.tagname.isPrefixOf e.tag then
      match m.find? fun p => p.oldid == get_item_id e.tag with
      | some mp =>
        let e2 : Entry := ⟨replaceAll mp.oldid mp.newid e.tag, e.data⟩
        let r := rename_groups e2 gs m
        (r.1, g :: r.2.1, r.2.2)
      | none =>
        let e2 : Entry := ⟨tag_set_new_count e.tag g.count, e.data⟩
        let g2 : ItemGroup := { g with count := if 0 < g.count then g.count - 1 else g.count }
        let m2 := m ++ [⟨get_item_id e.tag, get_item_id e2.tag⟩]
        let r := rename_groups e2 gs m2
        (r.1, g2 :: r.2.1, r.2.2)
    else
      let r := rename_groups e gs m
      (r.1, g :: r.2.1, r.2.2)

/-- The outer loop of the rename pass of fn clean_entries: entries on
the allowlist or starting with a blacklisted beginning are skipped
(checked once, against the original tag); every other entry runs
through `rename_groups`. -/
def rename_pass : List Entry → List ItemGroup → List MapE → List Entry × List ItemGroup × List MapE
  | [], gs, m => ([], gs, m)
  | e :: es, gs, m =>
    if dont_touch_entries.contains e.tag || blacklist.any fun bi => bi.isPrefixOf e.tag then
      let r := rename_pass es gs m
      (e :: r.1, r.2.1, r.2.2)
    else
      let r1 := rename_groups e gs m
      let r := rename_pass es r1.2.1 r1.2.2
      (r1.1 :: r.1, r.2.1, r.2.2)

/-- The counter patch of fn clean_entries for one entry, over the group
list: for every group whose counter tag equals the tag of the entry,
data bytes 5 to 8 are overwritten with the little-endian bytes of the
group maximum; the source indexes the data vector without a length
check, so data shorter than 9 bytes aborts the process. -/
def patch_groups : List ItemGroup → Entry → Except Unit Entry
  | [], e => .ok e
  | g :: gs, e =>
    if e.tag = g.tagid then
      if 9 ≤ e.data.length then
        patch_groups gs ⟨e.tag, e.data.take 5 ++ mk_u32_le g.max ++ e.data.drop 9⟩
      else .error ()
    else patch_groups gs e

/-- The final loop of fn clean_entries: patch every entry. -/
def patch_pass (gs : List ItemGroup) : List Entry → Except Unit (List Entry)
  | [] => .ok []
  | e :: es =>
    match patch_groups gs e with
    | .error u => .error u
    | .ok e2 =>
      match patch_pass gs es with
      | .error u => .error u
      | .ok es2 => .ok (e2 :: es2)

/-- The entries that survive the landfill filter of fn clean_entries,
in their original order. -/
def survivors (entries : List Entry) : List Entry :=
  entries.filter (survivesFilter entries)

/-- fn clean_entries of the source: drop every entry whose item id was
seen at the landfill position, count the surviving Transform entries of
every group, lower the counters of groups with a default zero item,
rename the surviving entries, and patch the counter entries. -/
def clean_entries (entries : List Entry) : Except Unit (List Entry) :=
  let res := survivors entries
  let gs := reduce_counters (count_items res item_counts0)
  let r := rename_pass res gs []
  patch_pass r.2.1 r.1

/-- Whether a tag is protected from renaming: on the allowlist, or
starting with a blacklisted beginning (the skip condition of the rename
pass of fn clean_entries). -/
def protectedL (t : List Nat) : Bool :=
  dont_touch_entries.contains t || blacklist.any fun bi => bi.isPrefixOf t

/-- Shape of every tag the rename pass can produce when it changes a
tag: nonempty, and either starting with a digit, or containing a digit
while not starting with a capital S.  No counter tag of the group table
has this shape, which is what makes the counter patch reach exactly the
original counter entries. -/
def GoodTag (t : List Nat) : Prop :=
  t ≠ [] ∧ (isDigitN (t.headD 0) = true ∨
    (t.headD 0 ≠ 83 ∧ t.headD 0 ≠ 114 ∧ hasDigitL t = true))

instance (t : List Nat) : Decidable (GoodTag t) := by
  unfold GoodTag
  infer_instance

/-- The fields of a group that the rename pass never changes. -/
def gframe (g : ItemGroup) : List Nat × List Nat × Bool × Nat :=
  (g.tagname, g.tagid, g.has_default_zero_item, g.max)

/-- The population of a group among the given entries: those whose tag
starts with the group tag beginning and ends with Transform (the
counting loop of fn clean_entries counts exactly these). -/
def transformCount (g : ItemGroup) (res : List Entry) : Nat :=
  (res.filter fun e =>
    g.tagname.isPrefixOf e.tag && endsWithL (str "Transform") e.tag).length

/-- The baseline adjustment of a group at a given population: one when
the group has a default zero item and the population is positive. -/
def baselineAdj (g : ItemGroup) (pop : Nat) : Nat :=
  if 1 ≤ pop ∧ g.has_default_zero_item then 1 else 0

/-- The final maximum of a group: its population among the survivors
minus the baseline adjustment. -/
def groupMax (g : ItemGroup) (res : List Entry) : Nat :=
  transformCount g res - baselineAdj g (transformCount g res)

/-- Well-formed buffers, following the record framing of the spec: a
concatenation of records, each a header 0x7E, one tag length byte, that
many tag bytes, four little-endian bytes of a length L counting the
data plus the footer (so L is at least 1 and fits in 32 bits), L - 1
data bytes, and the footer 0x7B. -/
inductive WFBuf : List Nat → Prop where
  | nil : WFBuf []
  | cons (tag data rest : List Nat) (L : Nat) :
      tag.length < 256 → 1 ≤ L → L < 4294967296 → data.length = L - 1 →
      WFBuf rest →
      WFBuf (126 :: tag.length :: (tag ++ (mk_u32_le L ++ (data ++ 123 :: rest))))

/-! Claims C1 and C2: the record codec. -/

/-- Reading back the little-endian bytes of a 32-bit number gives the
number. -/
theorem get_u32_le_mk (L : Nat) (h : L < 4294967296) :
    get_u32_le (L % 256) (L / 256 % 256) (L / 65536 % 256) (L / 16777216 % 256) = L := by
  simp only [get_u32_le]
  omega

/-- Parsing one well-formed record: the scan consumes exactly the
record, producing the entry and the bytes after it. -/
theorem parseRecord_record (pos : Nat) (tag data rest : List Nat) (L : Nat)
    (hL1 : 1 ≤ L) (hL2 : L < 4294967296) (hdl : data.length = L - 1) :
    parseRecord pos (126 :: tag.length :: (tag ++ (mk_u32_le L ++ (data ++ 123 :: rest))))
      = .ok (⟨tag, data⟩, pos + 2 + tag.length + 4 + data.length + 1, rest) := by
  have e2 : (tag ++ (mk_u32_le L ++ (data ++ 123 :: rest))).drop tag.length
      = mk_u32_le L ++ (data ++ 123 :: rest) := List.drop_left _ _
  have e3 : (mk_u32_le L ++ (data ++ 123 :: rest)).drop 4 = data ++ 123 :: rest := by
    simp [mk_u32_le]
  have e5 : (data ++ 123 :: rest).take data.length = data := List.take_left _ _
  have e6 : (data ++ 123 :: rest).getD data.length 0 = 123 := by
    simp [List.getD_eq_getElem?_getD, List.getElem?_append_right (Nat.le_refl data.length)]
  have e7 : (data ++ 123 :: rest).drop (data.length + 1) = rest := by
    simp [Nat.add_comm]
  have eL : get_u32_le ((mk_u32_le L ++ (data ++ 123 :: rest)).getD 0 0)
      ((mk_u32_le L ++ (data ++ 123 :: rest)).getD 1 0)
      ((mk_u32_le L ++ (data ++ 123 :: rest)).getD 2 0)
      ((mk_u32_le L ++ (data ++ 123 :: rest)).getD 3 0) = L := by
    simp only [mk_u32_le, List.cons_append, List.getD_cons_zero, List.getD_cons_succ]
    exact get_u32_le_mk L hL2
  have edlen : (L + 4294967295) % 4294967296 = data.length := by omega
  rw [parseRecord]
  rw [if_neg (by simp)]
  rw [if_neg (by simp)]
  rw [if_neg (by simp)]
  simp only [List.getD_cons_succ, List.getD_cons_zero, List.drop_succ_cons, List.drop_zero]
  rw [if_neg (by simp [mk_u32_le])]
  rw [e2]
  rw [if_neg (by simp [mk_u32_le])]
  rw [eL, edlen, e3]
  rw [if_neg (by simp)]
  rw [if_neg (by simp)]
  rw [if_neg (by rw [e6]; simp)]
  rw [e5, e7, List.take_left]

/-- Decoding one well-formed record inside the decoding loop. -/
theorem genGo_record (fuel pos : Nat) (tag data rest : List Nat) (L : Nat)
    (hL1 : 1 ≤ L) (hL2 : L < 4294967296) (hdl : data.length = L - 1) :
    genGo (fuel + 1) pos (126 :: tag.length :: (tag ++ (mk_u32_le L ++ (data ++ 123 :: rest))))
      = match genGo fuel (pos + 2 + tag.length + 4 + data.length + 1) rest with
        | .error err => .error err
        | .ok es => .ok (⟨tag, data⟩ :: es) := by
  rw [genGo, parseRecord_record pos tag data rest L hL1 hL2 hdl]

/-- Reading an element of a dropped list reads the shifted index. -/
theorem getD_drop (l : List Nat) (n i : Nat) : (l.drop n).getD i 0 = l.getD (n + i) 0 := by
  simp [List.getD_eq_getElem?_getD, List.getElem?_drop]

/-- ASCII tags are their own UTF-8 encoding. -/
theorem flatMap_utf8_ascii (tag : List Nat) (h : ∀ c ∈ tag, c < 128) :
    tag.flatMap utf8Bytes = tag := by
  induction tag with
  | nil => simp
  | cons c tl ih =>
    have hc : utf8Bytes c = [c] := by rw [utf8Bytes, if_pos (h c (by simp))]
    simp only [List.flatMap_cons, hc, List.singleton_append, List.cons.injEq, true_and]
    exact ih (fun x hx => h x (by simp [hx]))

/-- Decoding succeeds on every well-formed buffer, and when every
decoded tag is ASCII, re-encoding the entries rebuilds the buffer. -/
theorem genGo_wf_roundtrip (buf : List Nat) (h : WFBuf buf) :
    ∀ fuel pos, buf.length ≤ fuel →
    ∃ es, genGo fuel pos buf = .ok es ∧
      ((∀ e ∈ es, ∀ c ∈ e.tag, c < 128) → save_new_items_file es = buf) := by
  induction h with
  | nil =>
    intro fuel pos _
    refine ⟨[], ?_, fun _ => rfl⟩
    cases fuel <;> simp [genGo]
  | cons tag data rest L htl hL1 hL2 hdl hrest ih =>
    intro fuel pos hfuel
    have hlen : (126 :: tag.length :: (tag ++ (mk_u32_le L ++ (data ++ 123 :: rest)))).length
        = tag.length + data.length + rest.length + 7 := by
      simp [mk_u32_le]
      omega
    obtain ⟨fuel2, rfl⟩ : ∃ f, fuel = f + 1 := ⟨fuel - 1, by rw [hlen] at hfuel; omega⟩
    obtain ⟨es, hok, henc⟩ := ih fuel2 (pos + 2 + tag.length + 4 + data.length + 1)
      (by rw [hlen] at hfuel; omega)
    refine ⟨⟨tag, data⟩ :: es, ?_, ?_⟩
    · rw [genGo_record fuel2 pos tag data rest L hL1 hL2 hdl, hok]
    · intro hascii
      have htag : tag.flatMap utf8Bytes = tag :=
        flatMap_utf8_ascii tag (hascii ⟨tag, data⟩ (by simp))
      have hLdl : data.length + 1 = L := by omega
      have hrec : save_new_items_file es = rest :=
        henc (fun e he => hascii e (by simp [he]))
      show encodeEntry ⟨tag, data⟩ ++ save_new_items_file es = _
      rw [hrec, encodeEntry]
      simp only [htag, hLdl, Nat.mod_eq_of_lt htl]
      simp [List.append_assoc]

/-- One-step unfolding of the decoding loop on a nonempty buffer. -/
theorem genGo_cons (fuel pos : Nat) (b : Nat) (rest : List Nat) :
    genGo (fuel + 1) pos (b :: rest) = match parseRecord pos (b :: rest) with
      | .error e => .error e
      | .ok (entry, pos2, rest5) =>
        match genGo fuel pos2 rest5 with
        | .error err => .error err
        | .ok es => .ok (entry :: es) := rfl

/-- The shape of a successful record parse: the position advances past
the record and the returned remainder is the corresponding suffix. -/
theorem parseRecord_ok (pos : Nat) (l : List Nat) (entry : Entry) (pos2 : Nat)
    (rest5 : List Nat) (h : parseRecord pos l = .ok (entry, pos2, rest5)) :
    pos < pos2 ∧ l.drop (pos2 - pos) = rest5 ∧ l.length = (pos2 - pos) + rest5.length := by
  simp only [parseRecord] at h
  split_ifs at h with h1 h2 h3 h4 h5 h6 h7 h8
  simp only [Except.ok.injEq, Prod.mk.injEq] at h
  obtain ⟨-, hpos2, hrest5⟩ := h
  set tlen := l.getD 1 0 with htlen
  set L := get_u32_le (((l.drop 2).drop tlen).getD 0 0) (((l.drop 2).drop tlen).getD 1 0)
    (((l.drop 2).drop tlen).getD 2 0) (((l.drop 2).drop tlen).getD 3 0) with hL
  set dlen := (L + 4294967295) % 4294967296 with hdlen
  have hk : pos2 - pos = 2 + tlen + 4 + dlen + 1 := by omega
  have hdrop : l.drop (2 + tlen + 4 + dlen + 1) = rest5 := by
    rw [List.drop_drop, List.drop_drop, List.drop_drop] at hrest5
    rw [show (2 : Nat) + tlen + 4 + dlen + 1 = 2 + (tlen + (4 + (dlen + 1))) by omega]
    exact hrest5
  have hl2 : 2 ≤ l.length := by omega
  have hl3 : tlen ≤ (l.drop 2).length := by omega
  have hl4 : 4 ≤ ((l.drop 2).drop tlen).length := by omega
  have hl5 : dlen < (((l.drop 2).drop tlen).drop 4).length := by omega
  refine ⟨by omega, by rw [hk]; exact hdrop, ?_⟩
  have hld := congrArg List.length hdrop
  simp only [List.length_drop] at hld
  simp only [List.length_drop] at hl3 hl4 hl5
  omega

/-- Failed parses report true causes: a header error means the byte at
the reported position is not the header byte, a footer error means the
byte at the reported position is not the footer byte, and a read past
the end reports the buffer length. -/
theorem parseRecord_err (pos : Nat) (l : List Nat) (e : DecErr) (hne : l ≠ [])
    (h : parseRecord pos l = .error e) :
    (∀ p, e = .header p → p = pos ∧ l.getD 0 0 ≠ 126) ∧
    (∀ p, e = .footer p → pos ≤ p ∧ p - pos < l.length ∧ l.getD (p - pos) 0 ≠ 123) ∧
    (∀ p, e = .oob p → p = pos + l.length) := by
  have hlen1 : 1 ≤ l.length := by
    cases l with
    | nil => exact absurd rfl hne
    | cons a b => simp
  simp only [parseRecord] at h
  split_ifs at h with h1 h2 h3 h4 h5 h6 h7 h8
  · exact absurd h1 (by omega)
  · simp only [Except.error.injEq] at h
    subst h
    refine ⟨?_, ?_, ?_⟩
    · intro p hp
      cases hp
      exact ⟨rfl, h2⟩
    · intro p hp
      exact absurd hp (by simp)
    · intro p hp
      exact absurd hp (by simp)
  · simp only [Except.error.injEq] at h
    subst h
    refine ⟨fun p hp => absurd hp (by simp), fun p hp => absurd hp (by simp), ?_⟩
    intro p hp
    cases hp
    omega
  · simp only [Except.error.injEq] at h
    subst h
    refine ⟨fun p hp => absurd hp (by simp), fun p hp => absurd hp (by simp), ?_⟩
    intro p hp
    simp only [DecErr.oob.injEq] at hp
    subst hp
    simp only [List.length_drop] at h4 ⊢
    omega
  · simp only [Except.error.injEq] at h
    subst h
    refine ⟨fun p hp => absurd hp (by simp), fun p hp => absurd hp (by simp), ?_⟩
    intro p hp
    simp only [DecErr.oob.injEq] at hp
    subst hp
    simp only [List.length_drop] at h4 h5 ⊢
    omega
  · simp only [Except.error.injEq] at h
    subst h
    refine ⟨fun p hp => absurd hp (by simp), fun p hp => absurd hp (by simp), ?_⟩
    intro p hp
    simp only [DecErr.oob.injEq] at hp
    subst hp
    simp only [List.length_drop] at h4 h5 h6 ⊢
    omega
  · simp only [Except.error.injEq] at h
    subst h
    refine ⟨fun p hp => absurd hp (by simp), fun p hp => absurd hp (by simp), ?_⟩
    intro p hp
    simp only [DecErr.oob.injEq] at hp
    subst hp
    simp only [List.length_drop] at h4 h5 h6 h7 ⊢
    omega
  · simp only [Except.error.injEq] at h
    subst h
    refine ⟨fun p hp => absurd hp (by simp), ?_, fun p hp => absurd hp (by simp)⟩
    intro p hp
    simp only [DecErr.footer.injEq] at hp
    subst hp
    simp only [List.length_drop] at h4 h5 h6 h7
    refine ⟨by omega, by omega, ?_⟩
    have hidx : pos + 2 + l.getD 1 0 + 4 +
        ((get_u32_le (((l.drop 2).drop (l.getD 1 0)).getD 0 0)
          (((l.drop 2).drop (l.getD 1 0)).getD 1 0)
          (((l.drop 2).drop (l.getD 1 0)).getD 2 0)
          (((l.drop 2).drop (l.getD 1 0)).getD 3 0) + 4294967295) % 4294967296) - pos
        = 2 + (l.getD 1 0 + (4 +
        ((get_u32_le (((l.drop 2).drop (l.getD 1 0)).getD 0 0)
          (((l.drop 2).drop (l.getD 1 0)).getD 1 0)
          (((l.drop 2).drop (l.getD 1 0)).getD 2 0)
          (((l.drop 2).drop (l.getD 1 0)).getD 3 0) + 4294967295) % 4294967296))) := by
      omega
    rw [hidx, ← getD_drop, ← getD_drop, ← getD_drop]
    exact h8

/-- Decoding errors report true causes, at any fuel at least the
buffer length. -/
theorem genGo_err : ∀ (fuel pos : Nat) (l : List Nat) (e : DecErr), l.length ≤ fuel →
    genGo fuel pos l = .error e →
    (∀ p, e = .header p → pos ≤ p ∧ p - pos < l.length ∧ l.getD (p - pos) 0 ≠ 126) ∧
    (∀ p, e = .footer p → pos ≤ p ∧ p - pos < l.length ∧ l.getD (p - pos) 0 ≠ 123) ∧
    (∀ p, e = .oob p → p = pos + l.length) := by
  intro fuel
  induction fuel with
  | zero =>
    intro pos l e hl h
    cases l with
    | nil => simp [genGo] at h
    | cons b rest => simp at hl
  | succ fuel ih =>
    intro pos l e hl h
    cases l with
    | nil => simp [genGo] at h
    | cons b rest =>
      cases hpr : parseRecord pos (b :: rest) with
      | error e2 =>
        have hstep : genGo (fuel + 1) pos (b :: rest) = .error e2 := by
          rw [genGo_cons, hpr]
        rw [hstep] at h
        simp only [Except.error.injEq] at h
        subst h
        obtain ⟨hh, hf, ho⟩ := parseRecord_err pos (b :: rest) e2 (by simp) hpr
        refine ⟨fun p hp => ?_, hf, ho⟩
        obtain ⟨hp1, hp2⟩ := hh p hp
        subst hp1
        exact ⟨le_refl _, by simp, by simpa using hp2⟩
      | ok val =>
        obtain ⟨entry, pos2, rest5⟩ := val
        have hstep : genGo (fuel + 1) pos (b :: rest)
            = match genGo fuel pos2 rest5 with
              | .error err => .error err
              | .ok es => .ok (entry :: es) := by
          rw [genGo_cons, hpr]
        rw [hstep] at h
        obtain ⟨hlt, hdrop, hlen2⟩ := parseRecord_ok pos (b :: rest) entry pos2 rest5 hpr
        cases hg : genGo fuel pos2 rest5 with
        | error err =>
          rw [hg] at h
          simp only [Except.error.injEq] at h
          subst h
          have hrl : rest5.length ≤ fuel := by
            simp only [List.length_cons] at hl hlen2
            omega
          obtain ⟨ihh, ihf, iho⟩ := ih pos2 rest5 _ hrl hg
          refine ⟨fun p hp => ?_, fun p hp => ?_, fun p hp => ?_⟩
          · obtain ⟨hp1, hp2, hp3⟩ := ihh p hp
            refine ⟨by omega, by omega, ?_⟩
            have hidx : p - pos = (pos2 - pos) + (p - pos2) := by omega
            rw [hidx, ← getD_drop, hdrop]
            exact hp3
          · obtain ⟨hp1, hp2, hp3⟩ := ihf p hp
            refine ⟨by omega, by omega, ?_⟩
            have hidx : p - pos = (pos2 - pos) + (p - pos2) := by omega
            rw [hidx, ← getD_drop, hdrop]
            exact hp3
          · have := iho p hp
            omega
        | ok es =>
          rw [hg] at h
          simp at h

/-- C2: decode fails only for the documented reasons.  On every
well-formed buffer decoding succeeds; a header error reports a position
inside the buffer whose byte is not 0x7E; a footer error reports a
position inside the buffer whose byte is not 0x7B; an out-of-bounds
abort happens exactly at the buffer length, that is, when the buffer is
exhausted in the middle of a record.  The error type has no other
constructor, and an error result carries no partial output. -/
theorem C2_decode_error_characterization :
    (∀ buf, WFBuf buf → ∃ es, generate_entries buf = .ok es) ∧
    (∀ buf p, generate_entries buf = .error (.header p) →
      p < buf.length ∧ buf.getD p 0 ≠ 126) ∧
    (∀ buf p, generate_entries buf = .error (.footer p) →
      p < buf.length ∧ buf.getD p 0 ≠ 123) ∧
    (∀ buf p, generate_entries buf = .error (.oob p) → p = buf.length) := by
  refine ⟨?_, ?_, ?_, ?_⟩
  · intro buf hwf
    obtain ⟨es, hok, -⟩ := genGo_wf_roundtrip buf hwf buf.length 0 (le_refl _)
    exact ⟨es, hok⟩
  · intro buf p h
    obtain ⟨hh, -, -⟩ := genGo_err buf.length 0 buf _ (le_refl _) h
    have := hh p rfl
    simpa using this
  · intro buf p h
    obtain ⟨-, hf, -⟩ := genGo_err buf.length 0 buf _ (le_refl _) h
    have := hf p rfl
    simpa using this
  · intro buf p h
    obtain ⟨-, -, ho⟩ := genGo_err buf.length 0 buf _ (le_refl _) h
    simpa using ho p rfl

/-- C2 witness: a concrete well-formed one-record buffer decodes. -/
theorem C2_witness : ∃ es, generate_entries [126, 0, 1, 0, 0, 0, 123] = .ok es := by
  apply C2_decode_error_characterization.1
  have h : [126, 0, 1, 0, 0, 0, 123]
      = 126 :: (List.length ([] : List Nat)) ::
        (([] : List Nat) ++ (mk_u32_le 1 ++ (([] : List Nat) ++ 123 :: []))) := by decide
  rw [h]
  exact WFBuf.cons [] [] [] 1 (by decide) (by decide) (by decide) (by decide) WFBuf.nil

/-- C1 counterexample: a well-formed buffer whose single record has the
tag byte 0xFF decodes, but re-encoding the decoded entries does not
reproduce the buffer (the tag byte is stored as a character, and its
UTF-8 encoding occupies two bytes), so encode after decode is not the
identity on well-formed buffers. -/
theorem C1_counterexample :
    WFBuf [126, 1, 255, 1, 0, 0, 0, 123] ∧
    generate_entries [126, 1, 255, 1, 0, 0, 0, 123] = .ok [⟨[255], []⟩] ∧
    save_new_items_file [⟨[255], []⟩] ≠ [126, 1, 255, 1, 0, 0, 0, 123] := by
  refine ⟨?_, by decide, by decide⟩
  have h : [126, 1, 255, 1, 0, 0, 0, 123]
      = 126 :: (List.length [255] : Nat) ::
        ([255] ++ (mk_u32_le 1 ++ (([] : List Nat) ++ 123 :: []))) := by decide
  rw [h]
  exact WFBuf.cons [255] [] [] 1 (by decide) (by decide) (by decide) (by decide) WFBuf.nil

/-- C1 amended: on every well-formed buffer decoding succeeds, and
whenever every byte of every decoded tag is ASCII (below 0x80),
encoding the decoded entries reproduces the buffer byte for byte; a
tag byte at or above 0x80 breaks the round trip, as the counterexample
shows. -/
theorem C1_roundtrip_ascii (buf : List Nat) (h : WFBuf buf) :
    ∃ es, generate_entries buf = .ok es ∧
      ((∀ e ∈ es, ∀ c ∈ e.tag, c < 128) → save_new_items_file es = buf) :=
  genGo_wf_roundtrip buf h buf.length 0 (le_refl _)

/-- C1 witness: the round trip applied to a concrete two-record buffer
with ASCII tags. -/
theorem C1_witness :
    save_new_items_file [⟨[97], []⟩] = [126, 1, 97, 1, 0, 0, 0, 123] := by
  have hwf : WFBuf [126, 1, 97, 1, 0, 0, 0, 123] := by
    have h : [126, 1, 97, 1, 0, 0, 0, 123]
        = 126 :: (List.length [97] : Nat) ::
          ([97] ++ (mk_u32_le 1 ++ (([] : List Nat) ++ 123 :: []))) := by decide
    rw [h]
    exact WFBuf.cons [97] [] [] 1 (by decide) (by decide) (by decide) (by decide) WFBuf.nil
  obtain ⟨es, hok, henc⟩ := C1_roundtrip_ascii [126, 1, 97, 1, 0, 0, 0, 123] hwf
  have hes : es = [⟨[97], []⟩] := by
    have hcomp : generate_entries [126, 1, 97, 1, 0, 0, 0, 123] = .ok [⟨[97], []⟩] := by decide
    rw [hcomp] at hok
    exact (Except.ok.injEq _ _).mp hok.symm
  subst hes
  exact henc (by decide)

/-- C3 counterexample: the first concrete example of the claim fails on
the code: get_item_id applied to sausagesx11Transform returns
sausagesx11 (the identity keeps the digit run), not sausagesx. -/
theorem C3_counterexample :
    get_item_id (str "sausagesx11Transform") ≠ str "sausagesx" := by decide

/-- C3 amended: the identity of a tag keeps the digit run, so
get_item_id of sausagesx11Transform is sausagesx11; the spraycan
example of the claim holds as stated (the digit run of a spraycan tag
is cut after its second digit). -/
theorem C3_item_identity_examples :
    get_item_id (str "sausagesx11Transform") = str "sausagesx11" ∧
    get_item_id (str "spraycan0145Transform") = str "spraycan01" := by decide

/-! Claim C8: landfill detection. -/

/-- Positions a to a + n - 1 of a list equal another list of length n
exactly when the lists agree pointwise there. -/
theorem take_drop_eq_iff (d s : List Nat) (a : Nat) (hab : a + s.length ≤ d.length) :
    ((d.drop a).take s.length = s ↔ ∀ i, i < s.length → d.getD (a + i) 0 = s.getD i 0) := by
  constructor
  · intro h i hi
    have h2 := congrArg (fun l => l.getD i 0) h
    simp only [List.getD_eq_getElem?_getD] at h2 ⊢
    rwa [List.getElem?_take_of_lt hi, List.getElem?_drop] at h2
  · intro h
    apply List.ext_getElem
    · simp only [List.length_take, List.length_drop]
      omega
    · intro i h1 h2
      have h3 := h i h2
      have h4 : a + i < d.length := by omega
      rw [List.getD_eq_getElem d 0 h4, List.getD_eq_getElem s 0 h2] at h3
      simpa [List.getElem_take, List.getElem_drop] using h3

/-- C8: is_in_landfill is false for data shorter than 18 bytes (in
particular for every 17-byte data), and for data of length at least 18
it is true exactly when the 12 bytes at positions 6 to 17 equal the
fixed landfill position bytes. -/
theorem C8_landfill_characterization (e : Entry) :
    (e.data.length < 18 → is_in_landfill e = false) ∧
    (e.data.length = 17 → is_in_landfill e = false) ∧
    (18 ≤ e.data.length →
      (is_in_landfill e = true ↔ (e.data.drop 6).take 12 = landfill_pos)) := by
  refine ⟨fun h => by simp [is_in_landfill, h],
          fun h => by simp [is_in_landfill, h],
          fun h => ?_⟩
  have h18 : ¬ e.data.length < 18 := by omega
  rw [is_in_landfill, if_neg h18]
  have hiff := take_drop_eq_iff e.data landfill_pos 6 (by simp [landfill_pos]; omega)
  rw [show landfill_pos.length = 12 from rfl] at hiff
  rw [hiff]
  have expand : ((List.range' 6 12).foldl
      (fun same i => same && (e.data.getD i 0 == landfill_pos.getD (i - 6) 0)) true = true) ↔
      (e.data.getD 6 0 = 250 ∧ e.data.getD 7 0 = 212 ∧ e.data.getD 8 0 = 41 ∧
       e.data.getD 9 0 = 196 ∧ e.data.getD 10 0 = 184 ∧ e.data.getD 11 0 = 79 ∧
       e.data.getD 12 0 = 146 ∧ e.data.getD 13 0 = 64 ∧ e.data.getD 14 0 = 239 ∧
       e.data.getD 15 0 = 210 ∧ e.data.getD 16 0 = 53 ∧ e.data.getD 17 0 = 196) := by
    simp [List.range', List.foldl, Bool.and_eq_true, beq_iff_eq, and_assoc, landfill_pos]
  rw [expand]
  constructor
  · rintro ⟨h6, h7, h8, h9, h10, h11, h12, h13, h14, h15, h16, h17⟩ i hi
    simp only [List.getD_eq_getElem?_getD] at h6 h7 h8 h9 h10 h11 h12 h13 h14 h15 h16 h17
    interval_cases i <;> simp [landfill_pos] <;> assumption
  · intro hall
    refine ⟨?_, ?_, ?_, ?_, ?_, ?_, ?_, ?_, ?_, ?_, ?_, ?_⟩
    · simpa [landfill_pos] using hall 0 (by norm_num)
    · simpa [landfill_pos] using hall 1 (by norm_num)
    · simpa [landfill_pos] using hall 2 (by norm_num)
    · simpa [landfill_pos] using hall 3 (by norm_num)
    · simpa [landfill_pos] using hall 4 (by norm_num)
    · simpa [landfill_pos] using hall 5 (by norm_num)
    · simpa [landfill_pos] using hall 6 (by norm_num)
    · simpa [landfill_pos] using hall 7 (by norm_num)
    · simpa [landfill_pos] using hall 8 (by norm_num)
    · simpa [landfill_pos] using hall 9 (by norm_num)
    · simpa [landfill_pos] using hall 10 (by norm_num)
    · simpa [landfill_pos] using hall 11 (by norm_num)

/-- C8 witness: the characterization applied to a concrete 18-byte data
vector holding the landfill position bytes at positions 6 to 17. -/
theorem C8_witness :
    is_in_landfill ⟨[], [0, 0, 0, 0, 0, 0] ++ landfill_pos⟩ = true :=
  ((C8_landfill_characterization ⟨[], [0, 0, 0, 0, 0, 0] ++ landfill_pos⟩).2.2
    (by decide)).mpr (by decide)

/-! Claim C4: numeric suffix rewriting. -/

/-- Scanning non-digits with both positions still zero leaves the scan
state unchanged. -/
theorem tsnc_nondigit_zero (l : List Nat) (hl : ∀ c ∈ l, isDigitN c = false) :
    ∀ r i, tsncScan (l ++ r) i 0 0 = tsncScan r (i + l.length) 0 0 := by
  induction l with
  | nil => intro r i; simp
  | cons c l ih =>
    intro r i
    have hc : isDigitN c = false := hl c (by simp)
    simp only [List.cons_append, tsncScan, List.append_eq, hc, Bool.false_eq_true, if_false]
    rw [if_neg (by simp)]
    rw [ih (fun c hc => hl c (by simp [hc])) r (i + 1)]
    congr 1
    simp only [List.length_cons]
    omega

/-- Scanning digits with the start position already set leaves the scan
state unchanged. -/
theorem tsnc_digits_keep (l : List Nat) (hl : ∀ c ∈ l, isDigitN c = true) :
    ∀ r i s en, s ≠ 0 → tsncScan (l ++ r) i s en = tsncScan r (i + l.length) s en := by
  induction l with
  | nil => intro r i s en _; simp
  | cons c l ih =>
    intro r i s en hs
    have hc : isDigitN c = true := hl c (by simp)
    simp only [List.cons_append, tsncScan, List.append_eq, hc, if_true, if_neg hs]
    rw [ih (fun c hc => hl c (by simp [hc])) r (i + 1) s en hs]
    congr 1
    simp only [List.length_cons]
    omega

/-- Once both positions are set the scan no longer changes them. -/
theorem tsnc_stable (l : List Nat) : ∀ i s en, s ≠ 0 → en ≠ 0 → tsncScan l i s en = (s, en) := by
  induction l with
  | nil => intro i s en _ _; simp [tsncScan]
  | cons c l ih =>
    intro i s en hs hen
    by_cases hc : isDigitN c = true
    · simp only [tsncScan, hc, if_true, if_neg hs]
      exact ih (i + 1) s en hs hen
    · simp only [tsncScan, hc, Bool.false_eq_true, if_false]
      rw [if_neg (by simp [hen])]
      exact ih (i + 1) s en hs hen

/-- The scan of a tag made of a nonempty digit-free part, a digit run
headed by d0, and a tail headed by a non-digit c0 finds the bounds of
the digit run. -/
theorem tsnc_main (a d s0' : List Nat) (d0 c0 : Nat) (ha : a ≠ [])
    (hand : ∀ c ∈ a, isDigitN c = false) (hd0 : isDigitN d0 = true)
    (hdd : ∀ c ∈ d, isDigitN c = true) (hc0 : isDigitN c0 = false) :
    tsncScan (a ++ (d0 :: d) ++ (c0 :: s0')) 0 0 0 = (a.length, a.length + d.length + 1) := by
  have hal : a.length ≠ 0 := by
    intro h
    exact ha (List.length_eq_zero.mp h)
  rw [List.append_assoc, tsnc_nondigit_zero a hand _ 0]
  simp only [List.cons_append, tsncScan, List.append_eq, hd0, if_true, if_pos rfl, Nat.zero_add]
  rw [tsnc_digits_keep d hdd _ _ _ _ hal]
  have hstep : tsncScan (c0 :: s0') (a.length + 1 + d.length) a.length 0
      = tsncScan s0' (a.length + 1 + d.length + 1) a.length (a.length + 1 + d.length) := by
    simp only [tsncScan, hc0, Bool.false_eq_true, if_false]
    exact if_pos ⟨Nat.pos_of_ne_zero hal, trivial⟩
  rw [hstep, tsnc_stable s0' _ _ _ hal (by omega)]
  simp only [Prod.mk.injEq]
  exact ⟨trivial, by omega⟩

/-- C4 amended: when the first digit run of the tag begins after
position zero (equivalently, after a nonempty digit-free prefix) and is
followed by a non-digit character, tag_set_new_count replaces the run
with the decimal text of n, preserving prefix and suffix verbatim, and
the concrete example of the claim holds; however a tag with no digit
run is not returned unchanged: the decimal text of n is prepended. -/
theorem C4_set_suffix_characterization :
    (∀ (a d s0' : List Nat) (c0 n : Nat), a ≠ [] →
      (∀ c ∈ a, isDigitN c = false) → d ≠ [] → (∀ c ∈ d, isDigitN c = true) →
      isDigitN c0 = false →
      tag_set_new_count (a ++ d ++ (c0 :: s0')) n = a ++ natDigits n ++ (c0 :: s0')) ∧
    tag_set_new_count (str "sausagesx11Transform") 7 = str "sausagesx7Transform" ∧
    (∀ (t : List Nat) (n : Nat), (∀ c ∈ t, isDigitN c = false) →
      tag_set_new_count t n = natDigits n ++ t) := by
  refine ⟨?_, by decide, ?_⟩
  · intro a d s0' c0 n ha hand hd hdd hc0
    obtain ⟨d0, d', rfl⟩ : ∃ d0 d', d = d0 :: d' := by
      cases d with
      | nil => exact absurd rfl hd
      | cons d0 d' => exact ⟨d0, d', rfl⟩
    have hscan := tsnc_main a d' s0' d0 c0 ha hand (hdd d0 (by simp))
      (fun c hc => hdd c (by simp [hc])) hc0
    rw [tag_set_new_count, hscan]
    have htake : (a ++ (d0 :: d') ++ (c0 :: s0')).take a.length = a := by
      rw [List.append_assoc, List.take_left]
    have hdrop : (a ++ (d0 :: d') ++ (c0 :: s0')).drop (a.length + d'.length + 1) = c0 :: s0' := by
      rw [show a.length + d'.length + 1 = (a ++ (d0 :: d')).length by simp; omega]
      rw [List.drop_left]
    rw [htake, hdrop]
  · intro t n hnd
    have hscan : tsncScan t 0 0 0 = (0, 0) := by
      have := tsnc_nondigit_zero t hnd [] 0
      simpa [tsncScan] using this
    rw [tag_set_new_count, hscan]
    simp

/-- C4 witness: the general statement applied to the decomposition of
the example tag of the claim. -/
theorem C4_witness :
    tag_set_new_count (str "sausagesx11Transform") 7 = str "sausagesx7Transform" := by
  have h := C4_set_suffix_characterization.1 (str "sausagesx") (str "11")
    (str "ransform") 84 7 (by decide) (by decide) (by decide) (by decide) (by decide)
  have h1 : str "sausagesx" ++ str "11" ++ (84 :: str "ransform")
      = str "sausagesx11Transform" := by decide
  have h2 : str "sausagesx" ++ natDigits 7 ++ (84 :: str "ransform")
      = str "sausagesx7Transform" := by decide
  rw [h1, h2] at h
  exact h

/-- C4 counterexample: the claim states that a tag without a digit run
is returned unchanged; the code prepends the number instead. -/
theorem C4_counterexample : tag_set_new_count (str "abc") 7 ≠ str "abc" := by decide

example : str "ab" = [97, 98] := by decide
example : get_item_id (str "pikex36Transform") = str "pikex36" := by decide
example : get_item_id (str "sausagesx11Transform") = str "sausagesx11" := by decide
example : get_item_id (str "spraycan0145Transform") = str "spraycan01" := by decide
example : tag_set_new_count (str "sausagesx11Transform") 7 = str "sausagesx7Transform" := by decide
example : tag_set_new_count (str "abc") 7 = str "7abc" := by decide
example : tag_set_new_count (str "sausagesx0") 7 = str "sausagesx7sausagesx0" := by decide
example : natDigits 145 = str "145" := by decide
example : replaceAll (str "spraycan01") (str "spraycan1") (str "spraycan0145Condition")
    = str "spraycan145Condition" := by decide
example : generate_entries [126, 1, 255, 1, 0, 0, 0, 123] = .ok [⟨[255], []⟩] := by decide
example : save_new_items_file [⟨[255], []⟩] = [126, 2, 195, 191, 1, 0, 0, 0, 123] := by decide
example : is_in_landfill ⟨[], [0, 0, 0, 0, 0, 0] ++ landfill_pos⟩ = true := by decide
example : clean_entries [⟨str "spraycan0145Transform", []⟩, ⟨str "spraycan0145Condition", []⟩]
    = .ok [⟨str "spraycan1Transform", []⟩, ⟨str "spraycan145Condition", []⟩] := by decide
example : clean_entries [⟨str "r20Transform", [0, 0, 0, 0, 0, 0] ++ landfill_pos⟩,
    ⟨str "r20 batteryx5Transform", []⟩] = .ok [] := by decide
example : clean_entries [⟨str "sausagesx1Transform", []⟩]
    = .ok [⟨str "sausagesx0Transform", []⟩] := by decide
example : clean_entries [⟨str "sugarID", []⟩] = .error () := by decide
example : clean_entries [⟨str "pikex3Transform", []⟩, ⟨str "pikex3Condition", []⟩]
    = .ok [⟨str "pikex1Transform", []⟩, ⟨str "pikex1Condition", []⟩] := by decide
example : clean_entries [⟨str "sugarID", [0, 0, 0, 0, 0, 0, 0, 0, 0]⟩]
    = .ok [⟨str "sugarID", [0, 0, 0, 0, 0, 0, 0, 0, 0]⟩] := by decide

/-! Facts about the static configuration, checked by evaluation. -/

/-- Every configured tag beginning is nonempty and does not start with
a capital S. -/
theorem groups_tagname_ok : ∀ g ∈ item_counts0, g.tagname ≠ [] ∧ g.tagname.headD 0 ≠ 83 ∧
    (g.tagname.headD 0 = 114 → ∃ bi ∈ blacklist, bi.isPrefixOf g.tagname = true) := by
  decide

/-- The configured counter tags are pairwise distinct. -/
theorem tagids_nodup : (item_counts0.map ItemGroup.tagid).Nodup := by decide

/-- No configured counter tag has the shape of a renamed tag. -/
theorem tagids_not_good : ∀ t ∈ item_counts0.map ItemGroup.tagid, ¬ GoodTag t := by decide

/-- The item id of every allowlist entry is itself on the allowlist. -/
theorem dont_touch_id_closed : ∀ t ∈ dont_touch_entries, get_item_id t ∈ dont_touch_entries := by
  decide

/-! Digit and prefix helpers. -/

/-- Every code point the decimal printer emits is a digit, given a
digit accumulator. -/
theorem natDigitsGo_digits : ∀ (fuel n : Nat) (acc : List Nat),
    (∀ c ∈ acc, isDigitN c = true) → ∀ c ∈ natDigitsGo fuel n acc, isDigitN c = true := by
  intro fuel
  induction fuel with
  | zero =>
    intro n acc hacc c hc
    rw [natDigitsGo] at hc
    exact hacc c hc
  | succ fuel ih =>
    intro n acc hacc c hc
    rw [natDigitsGo] at hc
    split_ifs at hc with h
    · simp only [List.mem_cons] at hc
      rcases hc with rfl | hc
      · simp only [isDigitN, Bool.and_eq_true, decide_eq_true_eq]
        omega
      · exact hacc c hc
    · refine ih (n / 10) _ ?_ c hc
      intro x hx
      simp only [List.mem_cons] at hx
      rcases hx with rfl | hx
      · simp only [isDigitN, Bool.and_eq_true, decide_eq_true_eq]
        omega
      · exact hacc x hx

/-- The decimal printer never returns the empty list when the
accumulator is nonempty or fuel remains. -/
theorem natDigitsGo_ne_nil : ∀ (fuel n : Nat) (acc : List Nat),
    acc ≠ [] ∨ fuel ≠ 0 → natDigitsGo fuel n acc ≠ [] := by
  intro fuel
  induction fuel with
  | zero =>
    intro n acc h
    rw [natDigitsGo]
    rcases h with h | h
    · exact h
    · exact absurd rfl h
  | succ fuel ih =>
    intro n acc h
    rw [natDigitsGo]
    split_ifs with hlt
    · simp
    · exact ih (n / 10) _ (Or.inl (by simp))

/-- The decimal text of a number is nonempty. -/
theorem natDigits_ne_nil (n : Nat) : natDigits n ≠ [] :=
  natDigitsGo_ne_nil (n + 1) n [] (Or.inr (by simp))

/-- Every code point of the decimal text of a number is a digit. -/
theorem natDigits_digits (n : Nat) : ∀ c ∈ natDigits n, isDigitN c = true :=
  natDigitsGo_digits (n + 1) n [] (by simp)

/-- The decimal text of a number starts with a digit. -/
theorem natDigits_head (n : Nat) : isDigitN ((natDigits n).headD 0) = true := by
  cases hd : natDigits n with
  | nil => exact absurd hd (natDigits_ne_nil n)
  | cons c rest =>
    have := natDigits_digits n c (by rw [hd]; simp)
    simpa using this

/-- The decimal text of a number contains a digit. -/
theorem natDigits_hasDigit (n : Nat) : hasDigitL (natDigits n) = true := by
  cases hd : natDigits n with
  | nil => exact absurd hd (natDigits_ne_nil n)
  | cons c rest =>
    have := natDigits_digits n c (by rw [hd]; simp)
    simp [hasDigitL]
    exact Or.inl this

/-- A list with a nonempty starting piece is nonempty. -/
theorem isPrefixOf_ne_nil {p t : List Nat} (hp : p ≠ []) (h : p.isPrefixOf t = true) :
    t ≠ [] := by
  cases p with
  | nil => exact absurd rfl hp
  | cons c cs =>
    cases t with
    | nil => simp [List.isPrefixOf] at h
    | cons d ds => simp

/-- A list starts with the head of any nonempty starting piece. -/
theorem isPrefixOf_headD {p t : List Nat} (hp : p ≠ []) (h : p.isPrefixOf t = true) :
    t.headD 0 = p.headD 0 := by
  cases p with
  | nil => exact absurd rfl hp
  | cons c cs =>
    cases t with
    | nil => simp [List.isPrefixOf] at h
    | cons d ds =>
      simp only [List.isPrefixOf, Bool.and_eq_true, beq_iff_eq] at h
      simp [h.1]

/-- The head of a positive-length starting slice is the head. -/
theorem take_headD {t : List Nat} {j : Nat} (hj : 1 ≤ j) : (t.take j).headD 0 = t.headD 0 := by
  cases t with
  | nil => simp
  | cons c cs =>
    cases j with
    | zero => omega
    | succ j => simp

/-- The head of an appended list with nonempty left part. -/
theorem headD_append_left {l1 l2 : List Nat} (h : l1 ≠ []) :
    (l1 ++ l2).headD 0 = l1.headD 0 := by
  cases l1 with
  | nil => exact absurd rfl h
  | cons c cs => simp

/-! Shape of get_item_id. -/

/-- The scan of get_item_id returns the whole tag or a starting slice
that contains a digit. -/
theorem giiGo_shape (tag : List Nat) (sc : Bool) :
    ∀ (rem : List Nat) (i cnt : Nat), rem = tag.drop i →
    (cnt ≠ 0 → hasDigitL (tag.take i) = true) →
    (giiGo tag sc rem i cnt = tag ∨
      ∃ j, giiGo tag sc rem i cnt = tag.take j ∧ hasDigitL (tag.take j) = true) := by
  intro rem
  induction rem with
  | nil =>
    intro i cnt _ _
    left
    rfl
  | cons c rest ih =>
    intro i cnt hdrop hinv
    have hrest : rest = tag.drop (i + 1) := by
      have := congrArg List.tail hdrop
      simpa [List.tail_drop] using this
    have hgetc : tag[i]? = some c := by
      have h0 : (tag.drop i)[0]? = some c := by rw [← hdrop]; simp
      rwa [List.getElem?_drop, Nat.add_zero] at h0
    have htake1 : tag.take (i + 1) = tag.take i ++ [c] := by
      rw [List.take_succ, hgetc]
      simp
    rw [giiGo]
    by_cases hcnt : cnt = 0
    · rw [if_pos hcnt]
      by_cases hdig : isDigitN c = true
      · rw [if_pos hdig]
        refine ih (i + 1) 1 hrest ?_
        intro _
        rw [htake1]
        simp [hasDigitL]
        exact Or.inr hdig
      · rw [if_neg hdig]
        exact ih (i + 1) 0 hrest (fun h => absurd rfl h)
    · rw [if_neg hcnt]
      by_cases hstop : (!isDigitN c || (sc && decide (2 ≤ cnt))) = true
      · rw [if_pos hstop]
        right
        exact ⟨i, rfl, hinv hcnt⟩
      · rw [if_neg hstop]
        refine ih (i + 1) (cnt + 1) hrest ?_
        intro _
        rw [htake1]
        simp [hasDigitL]
        exact Or.inl (by simpa [hasDigitL] using hinv hcnt)

/-- get_item_id returns the whole tag or a starting slice containing a
digit. -/
theorem gii_shape (t : List Nat) :
    get_item_id t = t ∨ ∃ j, get_item_id t = t.take j ∧ hasDigitL (t.take j) = true :=
  giiGo_shape t ((str "spraycan").isPrefixOf t) t 0 0 (by simp) (fun h => absurd rfl h)

/-- The item id of a nonempty tag is nonempty. -/
theorem gii_ne_nil (t : List Nat) (h : t ≠ []) : get_item_id t ≠ [] := by
  rcases gii_shape t with he | ⟨j, he, hd⟩
  · rw [he]; exact h
  · rw [he]
    intro hnil
    rw [hnil] at hd
    simp [hasDigitL] at hd

/-- The item id is a starting piece of the tag. -/
theorem gii_prefixOf (t : List Nat) : (get_item_id t).isPrefixOf t = true := by
  rcases gii_shape t with he | ⟨j, he, -⟩ <;> rw [he]
  · simp
  · simp [ List.isPrefixOf_iff_prefix, List.take_prefix]

/-- The item id of a tag of renamed shape has renamed shape. -/
theorem gii_GoodTag (t : List Nat) (h : GoodTag t) : GoodTag (get_item_id t) := by
  obtain ⟨hne, hshape⟩ := h
  rcases gii_shape t with he | ⟨j, he, hd⟩
  · rw [he]; exact ⟨hne, hshape⟩
  · rw [he]
    have hjne : t.take j ≠ [] := by
      intro hnil
      rw [hnil] at hd
      simp [hasDigitL] at hd
    have hj1 : 1 ≤ j := by
      rcases Nat.eq_zero_or_pos j with rfl | h1
      · simp at hjne
      · exact h1
    refine ⟨hjne, ?_⟩
    rw [take_headD hj1]
    rcases hshape with hs | hs
    · exact Or.inl hs
    · exact Or.inr ⟨hs.1, hs.2.1, hd⟩

/-- A rewritten tag has renamed shape, provided the tag is nonempty and
its head is a digit or differs from the two protected head letters. -/
theorem tsnc_GoodTag (t : List Nat) (n : Nat) (hne : t ≠ [])
    (hhead : isDigitN (t.headD 0) = true ∨ (t.headD 0 ≠ 83 ∧ t.headD 0 ≠ 114)) :
    GoodTag (tag_set_new_count t n) := by
  rw [tag_set_new_count]
  rcases Nat.eq_zero_or_pos (tsncScan t 0 0 0).1 with hs | hs
  · rw [hs]
    simp only [List.take_zero, List.nil_append]
    refine ⟨by simp [natDigits_ne_nil n], Or.inl ?_⟩
    rw [headD_append_left (natDigits_ne_nil n)]
    exact natDigits_head n
  · have htne : t.take (tsncScan t 0 0 0).1 ≠ [] := by
      cases t with
      | nil => exact absurd rfl hne
      | cons c cs =>
        cases h : (tsncScan (c :: cs) 0 0 0).1 with
        | zero => omega
        | succ j => simp
    have hh0 : (t.take (tsncScan t 0 0 0).1 ++ natDigits n
        ++ t.drop (tsncScan t 0 0 0).2).headD 0 = t.headD 0 := by
      rw [headD_append_left (by simp [htne]), headD_append_left htne, take_headD hs]
    have hdig : hasDigitL (t.take (tsncScan t 0 0 0).1 ++ natDigits n
        ++ t.drop (tsncScan t 0 0 0).2) = true := by
      obtain ⟨c, hc, hcd⟩ : ∃ c ∈ natDigits n, isDigitN c = true := by
        cases hd : natDigits n with
        | nil => exact absurd hd (natDigits_ne_nil n)
        | cons c cs => exact ⟨c, by simp, natDigits_digits n c (by simp [hd])⟩
      simp only [hasDigitL, List.any_eq_true]
      exact ⟨c, by simp [hc], hcd⟩
    refine ⟨by simp [htne], ?_⟩
    rcases hhead with hh | hh
    · exact Or.inl (by rw [hh0]; exact hh)
    · exact Or.inr ⟨by rw [hh0]; exact hh.1, by rw [hh0]; exact hh.2, hdig⟩

/-- A tag whose starting piece is replaced by a renamed-shape id has
renamed shape. -/
theorem replaceAll_GoodTag (old new t : List Nat) (hold : old ≠ [])
    (hpre : old.isPrefixOf t = true) (hnew : GoodTag new) :
    GoodTag (replaceAll old new t) := by
  obtain ⟨o, os, rfl⟩ : ∃ o os, old = o :: os := by
    cases old with
    | nil => exact absurd rfl hold
    | cons o os => exact ⟨o, os, rfl⟩
  obtain ⟨c, rest, rfl⟩ : ∃ c rest, t = c :: rest := by
    cases t with
    | nil => simp [List.isPrefixOf] at hpre
    | cons c rest => exact ⟨c, rest, rfl⟩
  have hstep : replaceAll (o :: os) new (c :: rest)
      = new ++ replaceGo o os new rest.length (rest.drop os.length) := by
    rw [replaceAll]
    show replaceGo o os new (rest.length + 1) (c :: rest) = _
    rw [replaceGo, if_pos hpre]
  rw [hstep]
  obtain ⟨hne, hshape⟩ := hnew
  refine ⟨by simp [hne], ?_⟩
  rw [headD_append_left hne]
  rcases hshape with hs | hs
  · exact Or.inl hs
  · refine Or.inr ⟨hs.1, hs.2.1, ?_⟩
    simp [hasDigitL, List.any_append]
    exact Or.inl (by simpa [hasDigitL] using hs.2.2)

/-- A nonempty starting piece of a starting piece starts the list. -/
theorem isPrefixOf_trans {a b c : List Nat} (h1 : a.isPrefixOf b = true)
    (h2 : b.isPrefixOf c = true) : a.isPrefixOf c = true := by
  rw [ List.isPrefixOf_iff_prefix] at h1 h2 ⊢
  exact h1.trans h2

/-- The inner rename loop: the data is untouched, the tag is unchanged
or of renamed shape, the groups keep their frames, and every id pushed
to the map has renamed shape. -/
theorem rename_groups_spec (gs : List ItemGroup) :
    ∀ (e : Entry) (m : List MapE),
    (∀ g ∈ gs, g.tagname ≠ [] ∧ g.tagname.headD 0 ≠ 83 ∧
      (g.tagname.headD 0 = 114 → ∃ bi ∈ blacklist, bi.isPrefixOf g.tagname = true)) →
    (∀ p ∈ m, GoodTag p.newid) →
    (protectedL e.tag = false ∨ GoodTag e.tag) →
    (rename_groups e gs m).1.data = e.data ∧
    ((rename_groups e gs m).1.tag = e.tag ∨ GoodTag (rename_groups e gs m).1.tag) ∧
    (rename_groups e gs m).2.1.map gframe = gs.map gframe ∧
    (∀ p ∈ (rename_groups e gs m).2.2, GoodTag p.newid) := by
  induction gs with
  | nil =>
    intro e m _ hm _
    exact ⟨rfl, Or.inl rfl, rfl, hm⟩
  | cons g gs ih =>
    intro e m hgs hm hstate
    have hgsrest : ∀ g ∈ gs, g.tagname ≠ [] ∧ g.tagname.headD 0 ≠ 83 ∧
        (g.tagname.headD 0 = 114 → ∃ bi ∈ blacklist, bi.isPrefixOf g.tagname = true) :=
      fun g hg => hgs g (by simp [hg])
    have hgOK := hgs g (by simp)
    by_cases h1 : g.tagid = e.tag
    · rw [rename_groups, if_pos h1]
      obtain ⟨d1, d2, d3, d4⟩ := ih e m hgsrest hm hstate
      exact ⟨d1, d2, by simp [d3], d4⟩
    · by_cases h2 : g.tagname.isPrefixOf e.tag = true
      · have htne : e.tag ≠ [] := isPrefixOf_ne_nil hgOK.1 h2
        have hhde : e.tag.headD 0 = g.tagname.headD 0 := isPrefixOf_headD hgOK.1 h2
        have hheadfact : isDigitN (e.tag.headD 0) = true ∨
            (e.tag.headD 0 ≠ 83 ∧ e.tag.headD 0 ≠ 114) := by
          rcases hstate with hp | hgood
          · right
            refine ⟨by rw [hhde]; exact hgOK.2.1, ?_⟩
            intro h114
            obtain ⟨bi, hbi, hbipre⟩ := hgOK.2.2 (by rw [← hhde]; exact h114)
            have : bi.isPrefixOf e.tag = true := isPrefixOf_trans hbipre h2
            have : protectedL e.tag = true := by
              simp only [protectedL, Bool.or_eq_true, List.any_eq_true]
              exact Or.inr ⟨bi, hbi, this⟩
            rw [this] at hp
            exact absurd hp (by simp)
          · rcases hgood.2 with hh | hh
            · exact Or.inl hh
            · exact Or.inr ⟨hh.1, hh.2.1⟩
        cases hfind : m.find? (fun p => p.oldid == get_item_id e.tag) with
        | some mp =>
          rw [rename_groups, if_neg h1]
          rw [if_pos h2, hfind]
          have hmem := List.mem_of_find?_eq_some hfind
          have hGood := hm mp hmem
          have hbeq := List.find?_some hfind
          have holdid : mp.oldid = get_item_id e.tag := by simpa using hbeq
          have hpre2 : mp.oldid.isPrefixOf e.tag = true := by
            rw [holdid]
            exact gii_prefixOf e.tag
          have holdne : mp.oldid ≠ [] := by
            rw [holdid]
            exact gii_ne_nil _ htne
          have hGood2 : GoodTag (replaceAll mp.oldid mp.newid e.tag) :=
            replaceAll_GoodTag _ _ _ holdne hpre2 hGood
          obtain ⟨d1, d2, d3, d4⟩ := ih ⟨replaceAll mp.oldid mp.newid e.tag, e.data⟩ m
            hgsrest hm (Or.inr hGood2)
          refine ⟨d1, ?_, by simp [d3], d4⟩
          right
          rcases d2 with d2 | d2
          · rw [d2]
            exact hGood2
          · exact d2
        | none =>
          rw [rename_groups, if_neg h1]
          rw [if_pos h2, hfind]
          have hGood2 : GoodTag (tag_set_new_count e.tag g.count) :=
            tsnc_GoodTag _ _ htne hheadfact
          have hm2 : ∀ p ∈ m ++ [⟨get_item_id e.tag,
              get_item_id (tag_set_new_count e.tag g.count)⟩], GoodTag p.newid := by
            intro p hp
            rcases List.mem_append.mp hp with hp | hp
            · exact hm p hp
            · simp only [List.mem_singleton] at hp
              subst hp
              exact gii_GoodTag _ hGood2
          obtain ⟨d1, d2, d3, d4⟩ := ih ⟨tag_set_new_count e.tag g.count, e.data⟩ _
            hgsrest hm2 (Or.inr hGood2)
          refine ⟨d1, ?_, ?_, d4⟩
          · right
            rcases d2 with d2 | d2
            · rw [d2]
              exact hGood2
            · exact d2
          · simp only [List.map_cons, d3]
            rfl
      · rw [rename_groups, if_neg h1, if_neg h2]
        obtain ⟨d1, d2, d3, d4⟩ := ih e m hgsrest hm hstate
        exact ⟨d1, d2, by simp [d3], d4⟩

/-- Group name facts transfer along frame equality. -/
theorem gframe_tagname_facts {gs2 gs : List ItemGroup}
    (h : gs2.map gframe = gs.map gframe)
    (hgs : ∀ g ∈ gs, g.tagname ≠ [] ∧ g.tagname.headD 0 ≠ 83 ∧
      (g.tagname.headD 0 = 114 → ∃ bi ∈ blacklist, bi.isPrefixOf g.tagname = true)) :
    ∀ g ∈ gs2, g.tagname ≠ [] ∧ g.tagname.headD 0 ≠ 83 ∧
      (g.tagname.headD 0 = 114 → ∃ bi ∈ blacklist, bi.isPrefixOf g.tagname = true) := by
  intro g hg
  have hmem : gframe g ∈ gs.map gframe := by
    rw [← h]
    exact List.mem_map_of_mem _ hg
  obtain ⟨g2, hg2, hge⟩ := List.mem_map.mp hmem
  have hname : g2.tagname = g.tagname := congrArg (fun x => x.1) hge
  rw [← hname]
  exact hgs g2 hg2

/-- Composition of elementwise relations along two lists. -/
theorem forall2_comp {R S T : Entry → Entry → Prop}
    (hc : ∀ a b c, R a b → S b c → T a c) :
    ∀ {l1 l2 l3 : List Entry}, List.Forall₂ R l1 l2 → List.Forall₂ S l2 l3 →
      List.Forall₂ T l1 l3 := by
  intro l1 l2 l3 h1
  induction h1 generalizing l3 with
  | nil =>
    intro h2
    cases h2
    exact .nil
  | cons hab h ihc =>
    intro h2
    cases h2 with
    | cons hbc h2 => exact .cons (hc _ _ _ hab hbc) (ihc h2)

/-- Every member of the right list of an elementwise relation has a
related member on the left. -/
theorem forall2_mem_right {R : Entry → Entry → Prop} :
    ∀ {l1 l2 : List Entry}, List.Forall₂ R l1 l2 → ∀ b ∈ l2, ∃ a, a ∈ l1 ∧ R a b := by
  intro l1 l2 h
  induction h with
  | nil =>
    intro b hb
    simp at hb
  | cons hab h ihc =>
    intro b hb
    rcases List.mem_cons.mp hb with rfl | hb
    · exact ⟨_, by simp, hab⟩
    · obtain ⟨a, ha, hr⟩ := ihc b hb
      exact ⟨a, by simp [ha], hr⟩

/-- The outer rename loop: entries correspond pointwise in order, with
data untouched and tags unchanged unless the entry is unprotected and
the new tag has renamed shape; the group frames are unchanged. -/
theorem rename_pass_spec : ∀ (res : List Entry) (gs : List ItemGroup) (m : List MapE),
    (∀ g ∈ gs, g.tagname ≠ [] ∧ g.tagname.headD 0 ≠ 83 ∧
      (g.tagname.headD 0 = 114 → ∃ bi ∈ blacklist, bi.isPrefixOf g.tagname = true)) →
    (∀ p ∈ m, GoodTag p.newid) →
    List.Forall₂ (fun e e2 => e2.data = e.data ∧
        (e2.tag = e.tag ∨ (protectedL e.tag = false ∧ GoodTag e2.tag)))
      res (rename_pass res gs m).1 ∧
    (rename_pass res gs m).2.1.map gframe = gs.map gframe ∧
    (∀ p ∈ (rename_pass res gs m).2.2, GoodTag p.newid) := by
  intro res
  induction res with
  | nil =>
    intro gs m _ hm
    exact ⟨.nil, rfl, hm⟩
  | cons e es ih =>
    intro gs m hgs hm
    by_cases hskip : (dont_touch_entries.contains e.tag
        || blacklist.any fun bi => bi.isPrefixOf e.tag) = true
    · rw [rename_pass, if_pos hskip]
      obtain ⟨f2, fg, fm⟩ := ih gs m hgs hm
      exact ⟨.cons ⟨rfl, Or.inl rfl⟩ f2, fg, fm⟩
    · rw [rename_pass, if_neg hskip]
      have hprot : protectedL e.tag = false := by
        simp only [protectedL]
        exact Bool.eq_false_iff.mpr hskip
      obtain ⟨d1, d2, d3, d4⟩ := rename_groups_spec gs e m hgs hm (Or.inl hprot)
      obtain ⟨f2, fg, fm⟩ := ih (rename_groups e gs m).2.1 (rename_groups e gs m).2.2
        (gframe_tagname_facts d3 hgs) d4
      refine ⟨.cons ⟨d1, ?_⟩ f2, by rw [fg, d3], fm⟩
      rcases d2 with d2 | d2
      · exact Or.inl d2
      · exact Or.inr ⟨hprot, d2⟩

/-- The patch loop leaves an entry alone when no counter tag matches. -/
theorem patch_groups_no_match : ∀ (gs : List ItemGroup) (e : Entry),
    (∀ g ∈ gs, e.tag ≠ g.tagid) → patch_groups gs e = .ok e := by
  intro gs
  induction gs with
  | nil =>
    intro e _
    rfl
  | cons g gs ih =>
    intro e h
    rw [patch_groups, if_neg (h g (by simp))]
    exact ih e (fun g2 hg2 => h g2 (by simp [hg2]))

/-- A successful patch preserves the tag, the data length, and every
data byte outside positions 5 to 8. -/
theorem patch_groups_frame : ∀ (gs : List ItemGroup) (e e2 : Entry),
    patch_groups gs e = .ok e2 →
    e2.tag = e.tag ∧ e2.data.length = e.data.length ∧
      (∀ j, j < 5 ∨ 9 ≤ j → e2.data.getD j 0 = e.data.getD j 0) := by
  intro gs
  induction gs with
  | nil =>
    intro e e2 h
    simp only [patch_groups, Except.ok.injEq] at h
    subst h
    exact ⟨rfl, rfl, fun _ _ => rfl⟩
  | cons g gs ih =>
    intro e e2 h
    rw [patch_groups] at h
    split_ifs at h with h1 h2
    · obtain ⟨t1, t2, t3⟩ := ih _ _ h
      have hlen : (e.data.take 5 ++ mk_u32_le g.max ++ e.data.drop 9).length
          = e.data.length := by
        simp [mk_u32_le]
        omega
      refine ⟨t1, by rw [t2]; exact hlen, ?_⟩
      intro j hj
      rw [t3 j hj]
      show (e.data.take 5 ++ mk_u32_le g.max ++ e.data.drop 9).getD j 0 = e.data.getD j 0
      rcases hj with hj | hj
      · have hj5 : j < (e.data.take 5 ++ mk_u32_le g.max).length := by
          simp [mk_u32_le]
          omega
        rw [List.getD_append _ _ _ _ hj5]
        have hjt : j < (e.data.take 5).length := by
          simp
          omega
        rw [List.getD_append _ _ _ _ hjt]
        simp [List.getD_eq_getElem?_getD, List.getElem?_take_of_lt (show j < 5 by omega)]
      · have hj9 : (e.data.take 5 ++ mk_u32_le g.max).length ≤ j := by
          simp [mk_u32_le]
          omega
        rw [List.getD_append_right _ _ _ _ hj9]
        have hlen9 : (e.data.take 5 ++ mk_u32_le g.max).length = 9 := by
          simp [mk_u32_le]
          omega
        rw [hlen9, getD_drop]
        congr 1
        omega
    · exact ih e e2 h

/-- The patch loop succeeds when every matching entry has enough data. -/
theorem patch_groups_succeeds : ∀ (gs : List ItemGroup) (e : Entry),
    (∀ g ∈ gs, e.tag = g.tagid → 9 ≤ e.data.length) →
    ∃ e2, patch_groups gs e = .ok e2 := by
  intro gs
  induction gs with
  | nil =>
    intro e _
    exact ⟨e, rfl⟩
  | cons g gs ih =>
    intro e h
    rw [patch_groups]
    split_ifs with h1 h2
    · refine ih _ ?_
      intro g2 hg2 htag2
      have : (e.data.take 5 ++ mk_u32_le g.max ++ e.data.drop 9).length = e.data.length := by
        simp [mk_u32_le]
        omega
      rw [this]
      exact h g (by simp) h1
    · exact absurd (h g (by simp) h1) h2
    · exact ih e (fun g2 hg2 htag2 => h g2 (by simp [hg2]) htag2)

/-- A successful patch of an entry matching a counter tag stores the
little-endian maximum of that group in data bytes 5 to 8, provided the
counter tags are distinct. -/
theorem patch_groups_value : ∀ (gs : List ItemGroup) (e e2 : Entry) (g : ItemGroup),
    (gs.map ItemGroup.tagid).Nodup → g ∈ gs → e.tag = g.tagid →
    patch_groups gs e = .ok e2 →
    9 ≤ e2.data.length ∧ (e2.data.drop 5).take 4 = mk_u32_le g.max := by
  intro gs
  induction gs with
  | nil =>
    intro e e2 g _ hg _ _
    simp at hg
  | cons g0 gs ih =>
    intro e e2 g hnd hg htag h
    rw [patch_groups] at h
    rcases List.mem_cons.mp hg with rfl | hg2
    · rw [if_pos htag] at h
      split_ifs at h with h2
      · have hnomatch : ∀ g2 ∈ gs, e.tag ≠ g2.tagid := by
          intro g2 hg2 heq
          have : g.tagid ∈ gs.map ItemGroup.tagid := by
            rw [← htag, heq]
            exact List.mem_map_of_mem _ hg2
          simp only [List.map_cons, List.nodup_cons] at hnd
          exact hnd.1 this
        have hres := patch_groups_no_match gs
          ⟨e.tag, e.data.take 5 ++ mk_u32_le g.max ++ e.data.drop 9⟩
          (fun g2 hg2 => by simpa using hnomatch g2 hg2)
        rw [hres] at h
        simp only [Except.ok.injEq] at h
        subst h
        constructor
        · simp [mk_u32_le]
          omega
        · show ((e.data.take 5 ++ mk_u32_le g.max ++ e.data.drop 9).drop 5).take 4
            = mk_u32_le g.max
          have htk : (e.data.take 5).length = 5 := by
            simp
            omega
          rw [List.append_assoc]
          nth_rewrite 1 [show (5 : Nat) = (e.data.take 5).length from htk.symm]
          rw [List.drop_left]
          rw [show (4 : Nat) = (mk_u32_le g.max).length from rfl]
          rw [List.take_left]
    · have hne : e.tag ≠ g0.tagid := by
        rw [htag]
        intro heq
        have : g0.tagid ∈ gs.map ItemGroup.tagid := by
          rw [← heq]
          exact List.mem_map_of_mem _ hg2
        simp only [List.nodup_cons, List.map_cons] at hnd
        exact hnd.1 this
      rw [if_neg hne] at h
      exact ih e e2 g (by simp only [List.map_cons, List.nodup_cons] at hnd; exact hnd.2) hg2 htag h

/-- The patch pass relates input and output pointwise. -/
theorem patch_pass_forall2 (gs : List ItemGroup) : ∀ (res out : List Entry),
    patch_pass gs res = .ok out →
    List.Forall₂ (fun e e2 => patch_groups gs e = .ok e2) res out := by
  intro res
  induction res with
  | nil =>
    intro out h
    simp only [patch_pass, Except.ok.injEq] at h
    subst h
    exact .nil
  | cons e es ih =>
    intro out h
    rw [patch_pass] at h
    cases hpg : patch_groups gs e with
    | error u =>
      rw [hpg] at h
      simp at h
    | ok e2 =>
      rw [hpg] at h
      cases hpp : patch_pass gs es with
      | error u =>
        rw [hpp] at h
        simp at h
      | ok es2 =>
        rw [hpp] at h
        simp only [Except.ok.injEq] at h
        subst h
        exact .cons hpg (ih es2 hpp)

/-- The patch pass succeeds when every entry patches. -/
theorem patch_pass_succeeds (gs : List ItemGroup) : ∀ (res : List Entry),
    (∀ e ∈ res, ∃ e2, patch_groups gs e = .ok e2) →
    ∃ out, patch_pass gs res = .ok out := by
  intro res
  induction res with
  | nil =>
    intro _
    exact ⟨[], rfl⟩
  | cons e es ih =>
    intro h
    obtain ⟨e2, he2⟩ := h e (by simp)
    obtain ⟨es2, hes2⟩ := ih (fun x hx => h x (by simp [hx]))
    refine ⟨e2 :: es2, ?_⟩
    rw [patch_pass, he2, hes2]

/-! Claims C5, C6, C9 and C10: the whole transform. -/

/-- fn clean_entries unfolded into its three stages. -/
theorem clean_entries_eq (entries : List Entry) :
    clean_entries entries =
      patch_pass (rename_pass (survivors entries)
          (reduce_counters (count_items (survivors entries) item_counts0)) []).2.1
        (rename_pass (survivors entries)
          (reduce_counters (count_items (survivors entries) item_counts0)) []).1 := rfl

/-- Every configured group starts with running count and maximum zero. -/
theorem item_counts0_zero : ∀ g ∈ item_counts0, g.count = 0 ∧ g.max = 0 := by decide

/-- Counting and reduction keep the tag beginnings of the group table. -/
theorem count_reduce_tagname (res : List Entry) (gs0 : List ItemGroup) :
    (reduce_counters (count_items res gs0)).map ItemGroup.tagname
      = gs0.map ItemGroup.tagname := by
  simp only [reduce_counters, count_items, List.map_map]
  refine List.map_congr_left ?_
  intro g _
  simp only [Function.comp_apply]
  split <;> rfl

/-- Counting and reduction keep the counter tags of the group table. -/
theorem count_reduce_tagid (res : List Entry) (gs0 : List ItemGroup) :
    (reduce_counters (count_items res gs0)).map ItemGroup.tagid
      = gs0.map ItemGroup.tagid := by
  simp only [reduce_counters, count_items, List.map_map]
  refine List.map_congr_left ?_
  intro g _
  simp only [Function.comp_apply]
  split <;> rfl

/-- After counting and reduction, the frame of every configured group
carries the final maximum of the group. -/
theorem reduced_gframe (res : List Entry) :
    (reduce_counters (count_items res item_counts0)).map gframe
      = item_counts0.map fun g =>
          (g.tagname, g.tagid, g.has_default_zero_item, groupMax g res) := by
  simp only [reduce_counters, count_items, List.map_map]
  refine List.map_congr_left ?_
  intro g hg
  obtain ⟨hc, hm⟩ := item_counts0_zero g hg
  simp only [Function.comp_apply, gframe, groupMax, transformCount, baselineAdj, hc, hm,
    Nat.zero_add]
  split_ifs with h <;> rfl

/-- The counted and reduced group table keeps the name facts of the
static table. -/
theorem reduced_groups_tagname_ok (res : List Entry) :
    ∀ g ∈ reduce_counters (count_items res item_counts0),
      g.tagname ≠ [] ∧ g.tagname.headD 0 ≠ 83 ∧
      (g.tagname.headD 0 = 114 → ∃ bi ∈ blacklist, bi.isPrefixOf g.tagname = true) := by
  intro g hg
  have hmem : g.tagname
      ∈ (reduce_counters (count_items res item_counts0)).map ItemGroup.tagname :=
    List.mem_map_of_mem _ hg
  rw [count_reduce_tagname] at hmem
  obtain ⟨g0, hg0, he⟩ := List.mem_map.mp hmem
  rw [← he]
  exact groups_tagname_ok g0 hg0

/-- Equal group frames give equal counter tag lists. -/
theorem gframe_map_tagid {a b : List ItemGroup} (h : a.map gframe = b.map gframe) :
    a.map ItemGroup.tagid = b.map ItemGroup.tagid := by
  have e1 : ∀ (l : List ItemGroup),
      l.map ItemGroup.tagid
        = (l.map gframe).map fun p : List Nat × List Nat × Bool × Nat => p.2.1 := by
    intro l
    rw [List.map_map]
    rfl
  rw [e1, e1, h]

/-- C9: fn clean_entries neither reorders nor synthesizes records: when
it succeeds, the output corresponds pointwise and in order to the
survivors of the landfill filter, with equal data length and every data
byte outside positions 5 to 8 preserved; the only dropped records are
the non-survivors of the landfill classification. -/
theorem C9_order_and_frame (entries out : List Entry)
    (hok : clean_entries entries = .ok out) :
    List.Forall₂ (fun e e2 => e2.data.length = e.data.length ∧
        ∀ j, j < 5 ∨ 9 ≤ j → e2.data.getD j 0 = e.data.getD j 0)
      (survivors entries) out := by
  rw [clean_entries_eq] at hok
  obtain ⟨hr1, hg2, hm2⟩ := rename_pass_spec (survivors entries)
    (reduce_counters (count_items (survivors entries) item_counts0)) []
    (reduced_groups_tagname_ok _) (fun p hp => absurd hp (List.not_mem_nil p))
  have hp2 := patch_pass_forall2 _ _ _ hok
  refine forall2_comp ?_ hr1 hp2
  intro a b c hab hbc
  obtain ⟨t1, t2, t3⟩ := patch_groups_frame _ _ _ hbc
  constructor
  · rw [t2, hab.1]
  · intro j hj
    rw [t3 j hj, hab.1]

theorem C9_witness :
    List.Forall₂ (fun e e2 => e2.data.length = e.data.length ∧
        ∀ j, j < 5 ∨ 9 ≤ j → e2.data.getD j 0 = e.data.getD j 0)
      (survivors ([⟨str "pikex3Transform", []⟩, ⟨str "pikex3Condition", []⟩] : List Entry))
      ([⟨str "pikex1Transform", []⟩, ⟨str "pikex1Condition", []⟩] : List Entry) :=
  C9_order_and_frame _ _ (by decide)

/-- C6 (amended): a record whose tag is on the allowlist or starts with
a blacklisted beginning is never renamed: whenever fn clean_entries
succeeds, every surviving protected record keeps its tag. Protection
does not prevent removal: the landfill filter drops records by item id,
so a protected record is removed when an unprotected record with the
same item id sits at the landfill. -/
theorem C6_protected_not_renamed (entries out : List Entry)
    (hok : clean_entries entries = .ok out) :
    List.Forall₂ (fun e e2 => e2.data.length = e.data.length ∧
        (protectedL e.tag = true → e2.tag = e.tag))
      (survivors entries) out := by
  rw [clean_entries_eq] at hok
  obtain ⟨hr1, hg2, hm2⟩ := rename_pass_spec (survivors entries)
    (reduce_counters (count_items (survivors entries) item_counts0)) []
    (reduced_groups_tagname_ok _) (fun p hp => absurd hp (List.not_mem_nil p))
  have hp2 := patch_pass_forall2 _ _ _ hok
  refine forall2_comp ?_ hr1 hp2
  intro a b c hab hbc
  obtain ⟨t1, t2, t3⟩ := patch_groups_frame _ _ _ hbc
  refine ⟨by rw [t2, hab.1], ?_⟩
  intro hprot
  rcases hab.2 with ht | ht
  · rw [t1, ht]
  · rw [ht.1] at hprot
    simp at hprot

theorem C6_witness :
    List.Forall₂ (fun e e2 => e2.data.length = e.data.length ∧
        (protectedL e.tag = true → e2.tag = e.tag))
      (survivors ([⟨str "r20 batteryx5Transform", []⟩] : List Entry))
      ([⟨str "r20 batteryx5Transform", []⟩] : List Entry) :=
  C6_protected_not_renamed _ _ (by decide)

theorem C6_counterexample :
    protectedL (str "r20 batteryx5Transform") = true ∧
    clean_entries [⟨str "r20Transform", [0, 0, 0, 0, 0, 0] ++ landfill_pos⟩,
      ⟨str "r20 batteryx5Transform", []⟩] = .ok [] := by
  decide

/-- C10: the counter patch of fn clean_entries reads nine data bytes of
every record whose tag is a configured counter tag, with no length
guard: under the precondition that every such record carries at least
nine data bytes the transform returns a result, and on an input whose
counter record has fewer data bytes it aborts instead of returning. -/
theorem C10_counter_patch_totality :
    (∀ entries : List Entry,
      (∀ e ∈ entries, e.tag ∈ item_counts0.map ItemGroup.tagid → 9 ≤ e.data.length) →
      ∃ out, clean_entries entries = .ok out) ∧
    clean_entries [⟨str "sugarID", []⟩] = .error () := by
  constructor
  · intro entries hpre
    obtain ⟨hr1, hg2, hm2⟩ := rename_pass_spec (survivors entries)
      (reduce_counters (count_items (survivors entries) item_counts0)) []
      (reduced_groups_tagname_ok _) (fun p hp => absurd hp (List.not_mem_nil p))
    have htagids : (rename_pass (survivors entries)
        (reduce_counters (count_items (survivors entries) item_counts0)) []).2.1.map
          ItemGroup.tagid = item_counts0.map ItemGroup.tagid := by
      rw [gframe_map_tagid hg2, count_reduce_tagid]
    have hall : ∀ e ∈ (rename_pass (survivors entries)
        (reduce_counters (count_items (survivors entries) item_counts0)) []).1,
        ∃ e2, patch_groups (rename_pass (survivors entries)
          (reduce_counters (count_items (survivors entries) item_counts0)) []).2.1 e
            = .ok e2 := by
      intro e he
      obtain ⟨e0, he0, hrel⟩ := forall2_mem_right hr1 e he
      apply patch_groups_succeeds
      intro g hg htageq
      have hgid : g.tagid ∈ item_counts0.map ItemGroup.tagid := by
        rw [← htagids]
        exact List.mem_map_of_mem _ hg
      rcases hrel.2 with ht | ht
      · have hmem0 : e0.tag ∈ item_counts0.map ItemGroup.tagid := by
          rw [← ht, htageq]
          exact hgid
        rw [hrel.1]
        exact hpre e0 (List.mem_of_mem_filter he0) hmem0
      · exact absurd (htageq ▸ ht.2) (tagids_not_good g.tagid hgid)
    obtain ⟨out, hout⟩ := patch_pass_succeeds _ _ hall
    exact ⟨out, by rw [clean_entries_eq]; exact hout⟩
  · decide

theorem C10_witness : ∃ out, clean_entries [] = .ok out :=
  C10_counter_patch_totality.1 [] (fun e he => absurd he (List.not_mem_nil e))

/-- C5 (amended): for every configured group, the population of the
group among the surviving records equals the group maximum PLUS the
baseline adjustment (the source computes the maximum by subtracting the
adjustment from the population, not the population by subtracting the
adjustment from the maximum), and every output record carrying the
counter tag of the group stores that maximum little endian in data
bytes 5 to 8. -/
theorem C5_group_invariant (entries out : List Entry)
    (hok : clean_entries entries = .ok out) :
    ∀ g ∈ item_counts0,
      transformCount g (survivors entries)
        = groupMax g (survivors entries)
          + baselineAdj g (transformCount g (survivors entries)) ∧
      ∀ e2 ∈ out, e2.tag = g.tagid →
        9 ≤ e2.data.length ∧
          (e2.data.drop 5).take 4 = mk_u32_le (groupMax g (survivors entries)) := by
  rw [clean_entries_eq] at hok
  intro g hgmem
  constructor
  · simp only [groupMax, baselineAdj]
    split_ifs with h <;> omega
  · obtain ⟨hr1, hg2, hm2⟩ := rename_pass_spec (survivors entries)
      (reduce_counters (count_items (survivors entries) item_counts0)) []
      (reduced_groups_tagname_ok _) (fun p hp => absurd hp (List.not_mem_nil p))
    have htagids : (rename_pass (survivors entries)
        (reduce_counters (count_items (survivors entries) item_counts0)) []).2.1.map
          ItemGroup.tagid = item_counts0.map ItemGroup.tagid := by
      rw [gframe_map_tagid hg2, count_reduce_tagid]
    have hnd : ((rename_pass (survivors entries)
        (reduce_counters (count_items (survivors entries) item_counts0)) []).2.1.map
          ItemGroup.tagid).Nodup := by
      rw [htagids]
      exact tagids_nodup
    have hmem2 : (g.tagname, g.tagid, g.has_default_zero_item, groupMax g (survivors entries))
        ∈ (rename_pass (survivors entries)
            (reduce_counters (count_items (survivors entries) item_counts0)) []).2.1.map
          gframe := by
      rw [hg2, reduced_gframe]
      exact List.mem_map_of_mem _ hgmem
    obtain ⟨g2, hg2mem, hg2eq⟩ := List.mem_map.mp hmem2
    have hid2 : g2.tagid = g.tagid :=
      congrArg (fun p : List Nat × List Nat × Bool × Nat => p.2.1) hg2eq
    have hmax2 : g2.max = groupMax g (survivors entries) :=
      congrArg (fun p : List Nat × List Nat × Bool × Nat => p.2.2.2) hg2eq
    have hp2 := patch_pass_forall2 _ _ _ hok
    intro e2 he2 htag2
    obtain ⟨e, hemem, hpg⟩ := forall2_mem_right hp2 e2 he2
    have hetag : e.tag = g2.tagid := by
      have ht1 := (patch_groups_frame _ _ _ hpg).1
      rw [hid2, ← ht1]
      exact htag2
    obtain ⟨hlen, hval⟩ := patch_groups_value _ e e2 g2 hnd hg2mem hetag hpg
    refine ⟨hlen, ?_⟩
    rw [hval, hmax2]

theorem C5_witness :
    transformCount (⟨str "sugar", str "sugarID", false, 0, 0⟩ : ItemGroup)
        (survivors ([⟨str "sugarID", [0, 0, 0, 0, 0, 0, 0, 0, 0]⟩] : List Entry))
      = groupMax (⟨str "sugar", str "sugarID", false, 0, 0⟩ : ItemGroup)
          (survivors ([⟨str "sugarID", [0, 0, 0, 0, 0, 0, 0, 0, 0]⟩] : List Entry))
        + baselineAdj (⟨str "sugar", str "sugarID", false, 0, 0⟩ : ItemGroup)
            (transformCount (⟨str "sugar", str "sugarID", false, 0, 0⟩ : ItemGroup)
              (survivors ([⟨str "sugarID", [0, 0, 0, 0, 0, 0, 0, 0, 0]⟩] : List Entry))) ∧
    9 ≤ ([0, 0, 0, 0, 0, 0, 0, 0, 0] : List Nat).length ∧
    (([0, 0, 0, 0, 0, 0, 0, 0, 0] : List Nat).drop 5).take 4
      = mk_u32_le (groupMax (⟨str "sugar", str "sugarID", false, 0, 0⟩ : ItemGroup)
          (survivors ([⟨str "sugarID", [0, 0, 0, 0, 0, 0, 0, 0, 0]⟩] : List Entry))) := by
  have h := C5_group_invariant
    [⟨str "sugarID", [0, 0, 0, 0, 0, 0, 0, 0, 0]⟩]
    [⟨str "sugarID", [0, 0, 0, 0, 0, 0, 0, 0, 0]⟩]
    (by decide) ⟨str "sugar", str "sugarID", false, 0, 0⟩ (by decide)
  exact ⟨h.1, h.2 ⟨str "sugarID", [0, 0, 0, 0, 0, 0, 0, 0, 0]⟩ (by decide) (by decide)⟩

theorem C5_counterexample :
    ∃ g ∈ item_counts0,
      (transformCount g (survivors ([⟨str "sausagesx1Transform", []⟩] : List Entry)) : Int)
        ≠ (groupMax g (survivors ([⟨str "sausagesx1Transform", []⟩] : List Entry)) : Int)
          - (baselineAdj g (transformCount g
              (survivors ([⟨str "sausagesx1Transform", []⟩] : List Entry))) : Int) := by
  decide

/-- The length of a filter that looks only at tags depends only on the
tags. -/
theorem filter_tag_length (q : Entry → Bool)
    (hq : ∀ a b : Entry, a.tag = b.tag → q a = q b) :
    ∀ (res res2 : List Entry), res.map Entry.tag = res2.map Entry.tag →
      (res.filter q).length = (res2.filter q).length := by
  intro res
  induction res with
  | nil =>
    intro res2 h
    cases res2 with
    | nil => rfl
    | cons f fs => simp at h
  | cons e es ih =>
    intro res2 h
    cases res2 with
    | nil => simp at h
    | cons f fs =>
      simp only [List.map_cons, List.cons.injEq] at h
      simp only [List.filter_cons, hq e f h.1]
      split_ifs with hc
      · simp only [List.length_cons, ih fs h.2]
      · exact ih fs h.2

/-- The counting loop of fn clean_entries looks only at the tags of
the surviving entries. -/
theorem count_items_congr (res res2 : List Entry)
    (h : res.map Entry.tag = res2.map Entry.tag) (gs : List ItemGroup) :
    count_items res gs = count_items res2 gs := by
  unfold count_items
  congr 1
  funext g
  rw [filter_tag_length
    (fun e => g.tagname.isPrefixOf e.tag && endsWithL (str "Transform") e.tag)
    (fun a b hab => by simp only []; rw [hab]) res res2 h]

set_option maxHeartbeats 1000000 in
/-- C7 (amended): the claimed concrete sibling pair works: for any two
payloads that are not at the landfill, the records pikex3Transform and
pikex3Condition both survive and both receive the numeric suffix 1.
The general claim fails: the map stores item ids cut to two digits for
spraycan tags, and the byte replacement then rewrites only that cut
part, so a spraycan sibling pair diverges. -/
theorem C7_sibling_example (d1 d2 : List Nat)
    (h1 : is_in_landfill ⟨str "pikex3Transform", d1⟩ = false)
    (h2 : is_in_landfill ⟨str "pikex3Condition", d2⟩ = false) :
    clean_entries [⟨str "pikex3Transform", d1⟩, ⟨str "pikex3Condition", d2⟩]
      = .ok [⟨str "pikex1Transform", d1⟩, ⟨str "pikex1Condition", d2⟩] := by
  have hloc : located_in_landfill
      [⟨str "pikex3Transform", d1⟩, ⟨str "pikex3Condition", d2⟩] = [] := by
    simp [located_in_landfill, h1, h2]
  have hsurv : survivors [⟨str "pikex3Transform", d1⟩, ⟨str "pikex3Condition", d2⟩]
      = [⟨str "pikex3Transform", d1⟩, ⟨str "pikex3Condition", d2⟩] := by
    simp [survivors, survivesFilter, hloc]
  have ht1 : str "pikex3Transform" = [112, 105, 107, 101, 120, 51, 84, 114, 97, 110, 115, 102, 111, 114, 109] := by decide
  have ht2 : str "pikex3Condition" = [112, 105, 107, 101, 120, 51, 67, 111, 110, 100, 105, 116, 105, 111, 110] := by decide
  have ho1 : str "pikex1Transform" = [112, 105, 107, 101, 120, 49, 84, 114, 97, 110, 115, 102, 111, 114, 109] := by decide
  have ho2 : str "pikex1Condition" = [112, 105, 107, 101, 120, 49, 67, 111, 110, 100, 105, 116, 105, 111, 110] := by decide
  have hcnt : count_items [(⟨[112, 105, 107, 101, 120, 51, 84, 114, 97, 110, 115, 102, 111, 114, 109], d1⟩ : Entry), ⟨[112, 105, 107, 101, 120, 51, 67, 111, 110, 100, 105, 116, 105, 111, 110], d2⟩] item_counts0
      = count_items [(⟨[112, 105, 107, 101, 120, 51, 84, 114, 97, 110, 115, 102, 111, 114, 109], []⟩ : Entry), ⟨[112, 105, 107, 101, 120, 51, 67, 111, 110, 100, 105, 116, 105, 111, 110], []⟩] item_counts0 :=
    count_items_congr _ _ rfl _
  have hGS : reduce_counters
      (count_items [(⟨[112, 105, 107, 101, 120, 51, 84, 114, 97, 110, 115, 102, 111, 114, 109], []⟩ : Entry), ⟨[112, 105, 107, 101, 120, 51, 67, 111, 110, 100, 105, 116, 105, 111, 110], []⟩] item_counts0)
      = [⟨[98, 101, 101, 114, 99, 97, 115, 101], [66, 101, 101, 114, 67, 97, 115, 101, 73, 68], true, 0, 0⟩,
   ⟨[115, 97, 117, 115, 97, 103, 101, 115, 120], [83, 97, 117, 115, 97, 103, 101, 115, 120, 73, 68], true, 0, 0⟩,
   ⟨[109, 105, 108, 107, 120], [109, 105, 108, 107, 120, 73, 68], true, 0, 0⟩,
   ⟨[115, 117, 103, 97, 114], [115, 117, 103, 97, 114, 73, 68], false, 0, 0⟩,
   ⟨[121, 101, 97, 115, 116], [121, 101, 97, 115, 116, 73, 68], false, 0, 0⟩,
   ⟨[112, 111, 116, 97, 116, 111, 99, 104, 105, 112, 115], [112, 111, 116, 97, 116, 111, 99, 104, 105, 112, 115, 73, 68], false, 0, 0⟩,
   ⟨[112, 105, 122, 122, 97, 120], [112, 105, 122, 122, 97, 120, 73, 68], true, 0, 0⟩,
   ⟨[109, 97, 99, 97, 114, 111, 110, 98, 111, 120], [109, 97, 99, 97, 114, 111, 110, 98, 111, 120, 120, 73, 68], false, 0, 0⟩,
   ⟨[115, 104, 111, 112, 112, 105, 110, 103, 98, 97, 103, 120], [115, 104, 111, 112, 112, 105, 110, 103, 98, 97, 103, 120, 73, 68], false, 0, 0⟩,
   ⟨[109, 111, 111, 115, 101, 109, 101, 97, 116, 120], [109, 111, 111, 115, 101, 109, 101, 97, 116, 120, 73, 68], false, 0, 0⟩,
   ⟨[66, 111, 111, 122, 101], [66, 111, 111, 122, 101, 73, 68], false, 0, 0⟩,
   ⟨[112, 105, 107, 101, 120], [112, 105, 107, 101, 120, 73, 68], false, 1, 1⟩,
   ⟨[106, 117, 105, 99, 101, 99, 111, 110, 99, 101, 110, 116, 114, 97, 116, 101], [106, 117, 105, 99, 101, 99, 111, 110, 99, 101, 110, 116, 114, 97, 116, 101, 73, 68], false, 0, 0⟩,
   ⟨[109, 111, 116, 111, 114, 111, 105, 108], [109, 111, 116, 111, 114, 111, 105, 108, 73, 68], false, 0, 0⟩,
   ⟨[98, 114, 97, 107, 101, 102, 108, 117, 105, 100], [98, 114, 97, 107, 101, 102, 108, 117, 105, 100, 73, 68], false, 0, 0⟩,
   ⟨[99, 111, 111, 108, 97, 110, 116], [99, 111, 111, 108, 97, 110, 116, 73, 68], false, 0, 0⟩,
   ⟨[116, 119, 111, 115, 116, 114, 111, 107, 101], [116, 119, 111, 115, 116, 114, 111, 107, 101, 73, 68], false, 0, 0⟩,
   ⟨[99, 105, 103, 97, 114, 101, 116, 116, 101, 115], [99, 105, 103, 97, 114, 101, 116, 116, 101, 115, 73, 68], false, 0, 0⟩,
   ⟨[115, 112, 97, 114, 107, 32, 112, 108, 117, 103, 32, 98, 111, 120], [115, 112, 97, 114, 107, 112, 108, 117, 103, 98, 111, 120, 73, 68], false, 0, 0⟩,
   ⟨[103, 114, 111, 117, 110, 100, 99, 111, 102, 102, 101, 101], [103, 114, 111, 117, 110, 100, 99, 111, 102, 102, 101, 101, 73, 68], false, 0, 0⟩,
   ⟨[103, 114, 105, 108, 108, 99, 104, 97, 114, 99, 111, 97, 108], [103, 114, 105, 108, 108, 99, 104, 97, 114, 99, 111, 97, 108, 73, 68], false, 0, 0⟩,
   ⟨[108, 105, 103, 104, 116, 32, 98, 117, 108, 98, 32, 98, 111, 120], [108, 105, 103, 104, 116, 98, 117, 108, 98, 98, 111, 120, 73, 68], false, 0, 0⟩,
   ⟨[102, 117, 115, 101, 32, 112, 97, 99, 107, 97, 103, 101], [102, 117, 115, 101, 112, 97, 99, 107, 97, 103, 101, 73, 68], false, 0, 0⟩,
   ⟨[114, 50, 48, 32, 98, 97, 116, 116, 101, 114, 121, 32, 98, 111, 120], [114, 50, 48, 98, 97, 116, 116, 101, 114, 121, 98, 111, 120, 73, 68], false, 0, 0⟩,
   ⟨[109, 111, 115, 113, 117, 105, 116, 111, 115, 112, 114, 97, 121], [109, 111, 115, 113, 117, 105, 116, 111, 115, 112, 114, 97, 121, 73, 68], false, 0, 0⟩,
   ⟨[115, 112, 114, 97, 121, 99, 97, 110, 48, 49], [83, 112, 114, 97, 121, 99, 97, 110, 48, 49, 73, 68], false, 0, 0⟩,
   ⟨[115, 112, 114, 97, 121, 99, 97, 110, 48, 50], [83, 112, 114, 97, 121, 99, 97, 110, 48, 50, 73, 68], false, 0, 0⟩,
   ⟨[115, 112, 114, 97, 121, 99, 97, 110, 48, 51], [83, 112, 114, 97, 121, 99, 97, 110, 48, 51, 73, 68], false, 0, 0⟩,
   ⟨[115, 112, 114, 97, 121, 99, 97, 110, 48, 52], [83, 112, 114, 97, 121, 99, 97, 110, 48, 52, 73, 68], false, 0, 0⟩,
   ⟨[115, 112, 114, 97, 121, 99, 97, 110, 48, 53], [83, 112, 114, 97, 121, 99, 97, 110, 48, 53, 73, 68], false, 0, 0⟩,
   ⟨[115, 112, 114, 97, 121, 99, 97, 110, 48, 54], [83, 112, 114, 97, 121, 99, 97, 110, 48, 54, 73, 68], false, 0, 0⟩,
   ⟨[115, 112, 114, 97, 121, 99, 97, 110, 48, 55], [83, 112, 114, 97, 121, 99, 97, 110, 48, 55, 73, 68], false, 0, 0⟩,
   ⟨[115, 112, 114, 97, 121, 99, 97, 110, 48, 56], [83, 112, 114, 97, 121, 99, 97, 110, 48, 56, 73, 68], false, 0, 0⟩,
   ⟨[115, 112, 114, 97, 121, 99, 97, 110, 48, 57], [83, 112, 114, 97, 121, 99, 97, 110, 48, 57, 73, 68], false, 0, 0⟩,
   ⟨[115, 112, 114, 97, 121, 99, 97, 110, 49, 48], [83, 112, 114, 97, 121, 99, 97, 110, 49, 48, 73, 68], false, 0, 0⟩,
   ⟨[115, 112, 114, 97, 121, 99, 97, 110, 49, 49], [83, 112, 114, 97, 121, 99, 97, 110, 49, 49, 73, 68], false, 0, 0⟩,
   ⟨[115, 112, 114, 97, 121, 99, 97, 110, 49, 50], [83, 112, 114, 97, 121, 99, 97, 110, 49, 50, 73, 68], false, 0, 0⟩,
   ⟨[115, 112, 114, 97, 121, 99, 97, 110, 49, 51], [83, 112, 114, 97, 121, 99, 97, 110, 49, 51, 73, 68], false, 0, 0⟩] := by decide
  rw [clean_entries_eq, hsurv, ht1, ht2, ho1, ho2, hcnt, hGS]
  rfl

theorem C7_witness :
    is_in_landfill ⟨str "pikex3Transform", []⟩ = false ∧
    is_in_landfill ⟨str "pikex3Condition", []⟩ = false ∧
    clean_entries [⟨str "pikex3Transform", []⟩, ⟨str "pikex3Condition", []⟩]
      = .ok [⟨str "pikex1Transform", []⟩, ⟨str "pikex1Condition", []⟩] :=
  ⟨by decide, by decide, C7_sibling_example [] [] (by decide) (by decide)⟩

theorem C7_counterexample :
    get_item_id (str "spraycan0145Transform") = get_item_id (str "spraycan0145Condition") ∧
    clean_entries [⟨str "spraycan0145Transform", []⟩, ⟨str "spraycan0145Condition", []⟩]
      = .ok [⟨str "spraycan1Transform", []⟩, ⟨str "spraycan145Condition", []⟩] ∧
    get_item_id (str "spraycan1Transform") ≠ get_item_id (str "spraycan145Condition") := by
  decide
